import Mathlib

/-!
Verification of the lamoda catalog scraper (`product_links_parser.py`,
`main_parser.py`) against its natural-language specification.

The two pipelines are shallowly embedded as pure Lean functions:
* the Link Collector loop (`ProductLinksParser.run`) as a fuel-indexed
  step function over an explicit crawl state;
* the Detail Fetcher loop (`ProductDetailsParser.run`) as a fold over the
  list of indices it visits.

External effects are made explicit:
* network fetches become environment functions (`LPEnv.fetch`,
  `DFEnv.fetch`, `DLEnv.download`) that may fail;
* `BeautifulSoup` DOM queries are abstracted by records (`LPHtml`, `Dom`)
  holding exactly the query results the source code reads;
* file writes (checkpoint, result list, per-product output units) become
  fields of the run state;
* `time.sleep` calls and page fetches are recorded in an event trace so
  that pacing and re-fetch properties can be stated.
-/

namespace Lamoda

/-- A pacing-relevant event of a crawl loop: a `time.sleep` of duration `d`
(in seconds, as an exact rational), or an attempted fetch of page / list
index `k`. -/
inductive PEvent
  | sleep (d : ℚ)
  | fetch (k : Int)
deriving DecidableEq

/-- `intRangeGo lo n` is the list `[lo, lo+1, …, lo+n-1]`. -/
def intRangeGo (lo : Int) : Nat → List Int
  | 0 => []
  | Nat.succ n => lo :: intRangeGo (lo + 1) n

/-- The integer interval `[lo, hi)` as a list, i.e. Python's
`range(lo, hi)` for arbitrary (possibly negative) integer bounds. -/
def intRange (lo hi : Int) : List Int := intRangeGo lo (hi - lo).toNat

/-- Python's `str.startswith`, over explicit character lists (the byte-level
core implementation of `String.startsWith` does not matter here). -/
def listStarts : List Char → List Char → Bool
  | [], _ => true
  | _ :: _, [] => false
  | p :: ps, c :: cs => (p == c) && listStarts ps cs

/-- `pyStartswith s pre` models Python's `s.startswith(pre)`. -/
def pyStartswith (s pre : String) : Bool := listStarts pre.toList s.toList

/-- The sleep/fetch trace chunk of a list of fetches: each fetch of `k` is
immediately preceded by a sleep of duration `f k`. -/
def pairTrace (f : Int → ℚ) : List Int → List PEvent
  | [] => []
  | k :: ks => PEvent.sleep (f k) :: PEvent.fetch k :: pairTrace f ks

/-- The fetch keys of an event trace, in order. -/
def traceFetched (tr : List PEvent) : List Int :=
  tr.filterMap (fun e => match e with
    | PEvent.fetch p => some p
    | PEvent.sleep _ => none)

/-! ## Embedding of `product_links_parser.py` (the Link Collector) -/

/-- `ParserConfig` of `product_links_parser.py` (the fields the `run` loop
reads).  `end_page : Optional[int]` keeps its Python truthiness: both
`None` and `0` are falsy in the stop condition. -/
structure LPConfig where
  base_url : String
  start_page : Int
  end_page : Option Int
  min_links : Int
  max_links : Int
  request_delay : ℚ

/-- Abstraction of a fetched listing page, holding exactly what
`parse_links_from_html` reads from the DOM: whether the
`div.grid__catalog` container exists and, if so, the `href` attribute of
each `a.x-product-card__pic` card in document order (`none` when the card
has no `href`). -/
structure LPHtml where
  grid : Option (List (Option String))

/-- The Link Collector's external collaborator: `fetch url` is the result
of a `get_page_html(url)` call that returns normally; `none` covers every
failure path the source catches and converts to `None` (wait timeout,
request error).  Not modelled: in the selenium path the initial
`self.driver.get(url)` navigation sits outside the `try`, and the
per-page `save_checkpoint` disk write in `run` is unguarded — an
exception raised there propagates uncaught and aborts the whole process,
so this model covers exactly the runs in which those calls do not raise. -/
structure LPEnv where
  fetch : String → Option LPHtml

/-- The observable state of a Link Collector run: the in-memory
`collected_links` and `current_page`, the content of the checkpoint file
(`links`, `current_page` — exactly what `save_checkpoint` writes), the
content of the output file once `save_results` ran, and the sleep/fetch
event trace. -/
structure LPState where
  collected : List String
  current_page : Int
  checkpoint : Option (List String × Int)
  output : Option (List String)
  trace : List PEvent
deriving DecidableEq

/-- The body of the `for card in product_cards` loop of
`parse_links_from_html`: keep an `href` that is truthy and starts with
`"/p/"`, turn it into an absolute URL, and append it if it is in neither
the page-local accumulator nor `self.collected_links`. -/
def linkFoldStep (collected acc : List String) (href? : Option String) : List String :=
  match href? with
  | none => acc
  | some href =>
    if href = "" then acc
    else if pyStartswith href "/p/" then
      let full := "https://www.lamoda.ru" ++ href
      if full ∈ acc ∨ full ∈ collected then acc else acc ++ [full]
    else acc

/-- `ProductLinksParser.parse_links_from_html`: walk the product cards of
the grid container (absent grid ⇒ no links), folding `linkFoldStep` over
them. -/
def parse_links_from_html (collected : List String) (html : LPHtml) : List String :=
  match html.grid with
  | none => []
  | some cards => cards.foldl (linkFoldStep collected) []

/-- The URL computed for `current_page` at the top of the `run` loop:
page 1 is the bare `base_url`, later pages get a `?page=N` query. -/
def pageUrl (cfg : LPConfig) (p : Int) : String :=
  if p = 1 then cfg.base_url else cfg.base_url ++ "?page=" ++ toString p

/-- Why the Link Collector's `while True` loop exited (`break` sites of
`ProductLinksParser.run`, in source order). -/
inductive StopReason
  | maxLinks
  | fetchFail
  | noNewLinks
  | endPage
deriving DecidableEq

/-- Result of one iteration of the Link Collector's `while True` body:
either a `break` with the reason and the state at that moment, or fall
through to the next iteration. -/
inductive IterResult
  | stop (r : StopReason) (st : LPState)
  | next (st : LPState)
deriving DecidableEq

/-- The condition of the min-links/end-page `break`, with Python
truthiness: `len(collected_links) >= min_links and end_page and
current_page >= end_page` — an `end_page` of `None` or `0` is falsy. -/
def endPageStop (cfg : LPConfig) (count : Int) (page : Int) : Bool :=
  decide (cfg.min_links ≤ count) &&
    (match cfg.end_page with
     | none => false
     | some e => (!(e == 0)) && decide (e ≤ page))

/-- Record the `time.sleep(request_delay)` performed at the top of
`get_page_html` followed by the fetch attempt for `current_page`. -/
def lpFetchTraced (cfg : LPConfig) (st : LPState) : LPState :=
  { st with trace := st.trace ++ [PEvent.sleep cfg.request_delay, PEvent.fetch st.current_page] }

/-- One iteration of `ProductLinksParser.run`'s `while True` body:
check the max-links stop, compute the page URL, fetch (always sleeping
first), stop on fetch failure, parse, stop on zero new links, extend
`collected_links`, persist the checkpoint (`save_checkpoint` writes the
current `collected_links` and the still-unincremented `current_page`),
check the min-links/end-page stop, and finally increment `current_page`. -/
def lpIter (env : LPEnv) (cfg : LPConfig) (st : LPState) : IterResult :=
  if cfg.max_links ≤ (st.collected.length : Int) then
    IterResult.stop StopReason.maxLinks st
  else
    let st1 := lpFetchTraced cfg st
    match env.fetch (pageUrl cfg st.current_page) with
    | none => IterResult.stop StopReason.fetchFail st1
    | some html =>
      let new_links := parse_links_from_html st.collected html
      if new_links = [] then IterResult.stop StopReason.noNewLinks st1
      else
        let st2 := { st1 with collected := st1.collected ++ new_links }
        let st3 := { st2 with checkpoint := some (st2.collected, st2.current_page) }
        if endPageStop cfg (st3.collected.length : Int) st3.current_page then
          IterResult.stop StopReason.endPage st3
        else
          IterResult.next { st3 with current_page := st3.current_page + 1 }

/-- The `while True` loop of `ProductLinksParser.run`, with explicit fuel;
`none` means the loop has not exited within `fuel` iterations. -/
def lpLoop (env : LPEnv) (cfg : LPConfig) : Nat → LPState → Option (StopReason × LPState)
  | 0, _ => none
  | Nat.succ fuel, st =>
    match lpIter env cfg st with
    | IterResult.stop r st' => some (r, st')
    | IterResult.next st' => lpLoop env cfg fuel st'

/-- `ProductLinksParser.__init__` plus `load_checkpoint`: with no
checkpoint file, `collected_links = []` and `current_page = start_page`;
with a checkpoint file holding `links` and `current_page`, both are
restored from it (and the file itself is left untouched). -/
def lpInit (cfg : LPConfig) (cp : Option (List String × Int)) : LPState :=
  match cp with
  | none =>
    { collected := [], current_page := cfg.start_page, checkpoint := none,
      output := none, trace := [] }
  | some (links, page) =>
    { collected := links, current_page := page, checkpoint := some (links, page),
      output := none, trace := [] }

/-- `ProductLinksParser.run`: load the checkpoint, run the loop, and on
exit write `collected_links` to the output file (`save_results`). -/
def lpRun (env : LPEnv) (cfg : LPConfig) (fuel : Nat) (cp : Option (List String × Int)) :
    Option (StopReason × LPState) :=
  match lpLoop env cfg fuel (lpInit cfg cp) with
  | none => none
  | some (r, st) => some (r, { st with output := some st.collected })

/-- The pages whose fetch was attempted during a run, in order, read off
the event trace. -/
def lpFetched (st : LPState) : List Int := traceFetched st.trace

/-! ## Embedding of `main_parser.py` (the Detail Fetcher) -/

/-- The `ProductData` dataclass.  `attributes` is the insertion-ordered
dict as an association list. -/
structure ProductData where
  url : String
  price : Option String := none
  old_price : Option String := none
  description : Option String := none
  attributes : List (String × String) := []
deriving DecidableEq

/-- What `parse_product_page` reads from the `div#reviews-and-questions`
container: the text of the `div._description_795ct_30` element if present,
and for each `p._item_ajirn_2` the texts of its name/value spans (each
`none` when the span is missing). -/
structure DomInfo where
  description : Option String
  items : List (Option String × Option String)
deriving DecidableEq

/-- Abstraction of a fetched product page, holding exactly the DOM query
results `parse_product_page` and `extract_image_urls` read: the texts of
the `span._price_g09b8_11` elements in document order, the
`div#reviews-and-questions` container if present, and for each
`div.*ui-product-page-gallery*` the `src` of its first `img` (if any). -/
structure Dom where
  priceTexts : List String
  info : Option DomInfo
  gallery : List (Option String)
deriving DecidableEq

/-- Python dict assignment `d[k] = v` on an insertion-ordered assoc list:
overwrite in place if the key exists, else append. -/
def dictInsert (d : List (String × String)) (k v : String) : List (String × String) :=
  if d.any (fun p => p.1 == k) then
    d.map (fun p => if p.1 == k then (k, v) else p)
  else d ++ [(k, v)]

/-- `ProductDetailsParser.parse_product_page`: if at least two price
elements were found the first is `old_price` and the second is `price`;
`elif price_elements:` makes a single element the current `price`;
description and attributes are read from the `reviews-and-questions`
container when present. -/
def parse_product_page (dom : Dom) (url : String) : ProductData :=
  let pd0 : ProductData := { url := url }
  let pd1 :=
    if 2 ≤ dom.priceTexts.length then
      { pd0 with old_price := dom.priceTexts[0]?, price := dom.priceTexts[1]? }
    else if dom.priceTexts.length ≠ 0 then
      { pd0 with price := dom.priceTexts[0]? }
    else pd0
  match dom.info with
  | none => pd1
  | some info =>
    let pd2 :=
      match info.description with
      | some d => { pd1 with description := some d }
      | none => pd1
    { pd2 with
      attributes := info.items.foldl (fun acc it =>
        match it.1, it.2 with
        | some n, some v => dictInsert acc n v
        | _, _ => acc) [] }

/-- `ProductDetailsParser.extract_image_urls`: for each gallery `div`
whose `img` has a truthy `src`, resolve the `src` against the page URL.
`urljoin` (from `urllib.parse`) is an external collaborator and is passed
in as an opaque function. -/
def extract_image_urls (urljoin : String → String → String) (dom : Dom)
    (base_url : String) : List String :=
  dom.gallery.foldl (fun acc src? =>
    match src? with
    | none => acc
    | some src => if src = "" then acc else acc ++ [urljoin base_url src]) []

/-- Outcome of one `requests.get(img_url, timeout=10)` call inside
`save_product`: an HTTP response with a status code and body, or a raised
exception. -/
inductive HttpResp
  | resp (code : Int) (body : String)
  | exn
deriving DecidableEq

/-- Observable actions of `save_product`'s image-download loop:
a download attempt (`requests.get`) for a candidate URL, the
`time.sleep(1)` in the `except` branch, writing the downloaded body as the
image file, writing the `no_image.txt` sentinel, and writing `data.json`. -/
inductive DLEvent
  | attempt (url : String) (k : Nat)
  | sleep1
  | writeImage (url : String) (body : String)
  | writeSentinel
  | writeData
deriving DecidableEq

/-- Environment of `save_product`: the network's answer to the `k`-th
download attempt (`k = 0, 1, 2`) of each candidate URL, and `urljoin`. -/
structure DLEnv where
  download : String → Nat → HttpResp
  urljoin : String → String → String

/-- The inner `for attempt in range(3)` loop of `save_product`, for one
candidate `url`, starting at attempt `k` with `n` attempts left: a 200
response writes the image and breaks; any other status code just consumes
the attempt; a raised exception logs and sleeps one second.  Returns the
events and whether `saved` was set. -/
def tryAttempts (dl : Nat → HttpResp) (url : String) : Nat → Nat → List DLEvent × Bool
  | _, 0 => ([], false)
  | k, Nat.succ n =>
    match dl k with
    | HttpResp.resp code body =>
      if code = 200 then ([DLEvent.attempt url k, DLEvent.writeImage url body], true)
      else
        let r := tryAttempts dl url (k + 1) n
        (DLEvent.attempt url k :: r.1, r.2)
    | HttpResp.exn =>
      let r := tryAttempts dl url (k + 1) n
      (DLEvent.attempt url k :: DLEvent.sleep1 :: r.1, r.2)

/-- The outer `for img_url in img_urls` loop of `save_product`: try each
candidate in order, three attempts each, and stop at the first candidate
for which `saved` became true. -/
def downloadLoop (env : DLEnv) : List String → List DLEvent × Bool
  | [] => ([], false)
  | u :: rest =>
    let r := tryAttempts (env.download u) u 0 3
    if r.2 then r
    else
      let r2 := downloadLoop env rest
      (r.1 ++ r2.1, r2.2)

/-- `ProductDetailsParser.save_product` as its event trace: run the
download loop over the candidate image URLs extracted from the page; if
nothing was saved, write the `no_image.txt` sentinel; finally write
`data.json`. -/
def save_product (env : DLEnv) (dom : Dom) (base_url : String) : List DLEvent :=
  let r := downloadLoop env (extract_image_urls env.urljoin dom base_url)
  r.1 ++ (if r.2 then [] else [DLEvent.writeSentinel]) ++ [DLEvent.writeData]

/-- Content of the Detail Fetcher's `checkpoint.json` as `load_checkpoint`
classifies it: a JSON object whose `last_index` is an int `n`; a file that
makes `json.load` raise; or a file that parses but whose `last_index` is
missing or not an int. -/
inductive CPFile
  | valid (last_index : Int)
  | corruptJson
  | badField
deriving DecidableEq

/-- `ParserConfig` of `main_parser.py` (the fields the `run` loop reads).
`max_products` keeps its Python truthiness: `None` and `0` both disable
truncation. -/
structure DFConfig where
  start_from : Int
  max_products : Option Int
  request_delay : ℚ

/-- The Detail Fetcher's external collaborators, per list index:
`fetch idx` is `get_page_html` for the `idx`-th URL (`none` = returned
`None`); `jitter idx` is the `random.uniform(0, 2)` draw made before that
fetch; `parseExn`/`saveExn` say whether `parse_product_page` /
`save_product` raised for that index. -/
structure DFEnv where
  fetch : Int → Option String
  jitter : Int → ℚ
  parseExn : Int → Bool
  saveExn : Int → Bool

/-- The observable state of a Detail Fetcher run: the checkpoint file's
content, the indices whose output unit was fully saved, the indices the
loop has visited, and the sleep/fetch event trace. -/
structure DFState where
  checkpoint : Option CPFile
  savedIdxs : List Int
  processed : List Int
  trace : List PEvent
deriving DecidableEq

/-- `ProductDetailsParser.load_links`: read the input list and truncate it
to `max_products` when that is truthy (Python slice semantics, including a
negative bound). -/
def load_links (links : List String) (mp : Option Int) : List String :=
  match mp with
  | none => links
  | some m =>
    if m = 0 then links
    else if 0 ≤ m then links.take m.toNat
    else links.take (links.length - (-m).toNat)

/-- `ProductDetailsParser.load_checkpoint`: if the file exists, parses,
and its `last_index` is an int `n`, resume from `n + 1`; a JSON error is
caught and logged, a missing or non-int `last_index` is silently ignored —
in all those cases `current_index` keeps the configured `start_from`.  The
checkpoint file itself is never modified here. -/
def load_checkpoint (cp : Option CPFile) (start_from : Int) : Int :=
  match cp with
  | some (CPFile.valid n) => n + 1
  | some CPFile.corruptJson => start_from
  | some CPFile.badField => start_from
  | none => start_from

/-- One iteration of `ProductDetailsParser.run`'s `for idx in range(...)`
body: `get_page_html` (which always sleeps `request_delay +
random.uniform(0, 2)` first) is attempted; a `None` or falsy (empty)
result skips the index; then `parse_product_page`, `save_product` and
`save_checkpoint(idx)` run inside one `try`, so an exception in parse or
save skips the index without writing the checkpoint. -/
def dfProcess (env : DFEnv) (cfg : DFConfig) (st : DFState) (idx : Int) : DFState :=
  let st1 : DFState :=
    { st with
      processed := st.processed ++ [idx],
      trace := st.trace ++ [PEvent.sleep (cfg.request_delay + env.jitter idx), PEvent.fetch idx] }
  match env.fetch idx with
  | none => st1
  | some html =>
    if html = "" then st1
    else if env.parseExn idx then st1
    else if env.saveExn idx then st1
    else
      { st1 with
        savedIdxs := st1.savedIdxs ++ [idx],
        checkpoint := some (CPFile.valid idx) }

/-- The whole `for` loop of `ProductDetailsParser.run` over the index
list. -/
def dfLoop (env : DFEnv) (cfg : DFConfig) : DFState → List Int → DFState
  | st, [] => st
  | st, idx :: rest => dfLoop env cfg (dfProcess env cfg st idx) rest

/-- `dfSuccess env idx` ⟺ index `idx`'s page is fetched with a truthy
result and neither parse nor save raises — exactly the condition under
which `dfProcess` reaches `save_checkpoint(idx)`. -/
def dfSuccess (env : DFEnv) (idx : Int) : Bool :=
  match env.fetch idx with
  | none => false
  | some html => (!(html == "")) && (!env.parseExn idx) && (!env.saveExn idx)

/-- `ProductDetailsParser.run`: load the links, load the checkpoint,
iterate over `range(current_index, total)`, and finally delete the
checkpoint file (`os.remove` guarded by `os.path.exists`). -/
def dfRun (env : DFEnv) (cfg : DFConfig) (links : List String) (cp : Option CPFile) : DFState :=
  let lnks := load_links links cfg.max_products
  let start := load_checkpoint cp cfg.start_from
  let stEnd := dfLoop env cfg
    { checkpoint := cp, savedIdxs := [], processed := [], trace := [] }
    (intRange start lnks.length)
  { stEnd with checkpoint := none }

/-! ## Spec-side definitions and concrete example inputs -/

/-- Modelled from the spec: "Before every fetch, sleep for a configured
base delay plus a random jitter in a bounded range."  A trace satisfies
this pacing policy for a given jitter stream `draw` when it consists of
sleep/fetch pairs whose sleep duration is `base + draw k` for the fetch of
`k` it precedes. -/
def specPaced (base : ℚ) (draw : Int → ℚ) : List PEvent → Bool
  | [] => true
  | PEvent.sleep d :: PEvent.fetch k :: rest =>
    (d == base + draw k) && specPaced base draw rest
  | _ => false

/-- Modelled from the spec: "retry up to 3 times with a 1-second pause
between attempts."  A download trace has a pause between attempts when no
two download attempts are adjacent (something — the sleep — separates
consecutive attempts). -/
def pausedBetween (tr : List DLEvent) : Bool :=
  (tr.zip tr.tail).all (fun pr =>
    match pr with
    | (DLEvent.attempt _ _, DLEvent.attempt _ _) => false
    | _ => true)

/-- The pause discipline the code actually implements, as a relation on
adjacent download-trace events: an attempt that raised an exception is
followed by the 1-second sleep, and every 1-second sleep follows exactly
such an attempt. -/
def pauseRel (download : String → Nat → HttpResp) (a b : DLEvent) : Prop :=
  (∀ u k, a = DLEvent.attempt u k → download u k = HttpResp.exn → b = DLEvent.sleep1) ∧
  (b = DLEvent.sleep1 → ∃ u k, a = DLEvent.attempt u k ∧ download u k = HttpResp.exn)

/-- A Link Collector configuration used by the concrete runs below:
listing base URL `"b"`, pages from 1, no end-page limit, `min_links 50`,
`max_links 10`, a 2-second request delay. -/
def lpCfgEx : LPConfig :=
  { base_url := "b", start_page := 1, end_page := none, min_links := 50,
    max_links := 10, request_delay := 2 }

/-- The absolute URL built from the product card `href` `"/p/a"`. -/
def lamodaA : String := "https://www.lamoda.ru/p/a"

/-- Environment for the C2 counterexample: page 1 serves one product card
`"/p/a"`; every other page fails to load. -/
def c2Env : LPEnv :=
  { fetch := fun url => if url = "b" then some ⟨some [some "/p/a"]⟩ else none }

/-- Final state of the first (interrupted) C2 run: page 1 was completed
and checkpointed as `{links: [lamodaA], current_page: 1}`, then the fetch
of page 2 failed. -/
def c2St1 : LPState :=
  { collected := [lamodaA], current_page := 2, checkpoint := some ([lamodaA], 1),
    output := some [lamodaA],
    trace := [PEvent.sleep 2, PEvent.fetch 1, PEvent.sleep 2, PEvent.fetch 2] }

/-- Final state of the resumed C2 run: it re-fetches page 1 (the page the
checkpoint records as completed) and stops at once with zero new links. -/
def c2St2 : LPState :=
  { collected := [lamodaA], current_page := 1, checkpoint := some ([lamodaA], 1),
    output := some [lamodaA], trace := [PEvent.sleep 2, PEvent.fetch 1] }

/-- Environment for the C5 counterexample: page 1 and page 3 both serve
product cards, but the fetch of page 2 fails. -/
def c5Env : LPEnv :=
  { fetch := fun url =>
      if url = "b" then some ⟨some [some "/p/a"]⟩
      else if url = "b?page=3" then some ⟨some [some "/p/c"]⟩
      else none }

/-- Final state of the C5 run: the single failed fetch of page 2 stopped
the whole loop even though page 3 was fetchable and the max was far away. -/
def c5St : LPState :=
  { collected := [lamodaA], current_page := 2, checkpoint := some ([lamodaA], 1),
    output := some [lamodaA],
    trace := [PEvent.sleep 2, PEvent.fetch 1, PEvent.sleep 2, PEvent.fetch 2] }

/-- Environment for the C9 counterexample: every listing page loads but
has no grid container, so the first page yields zero links. -/
def c9Env : LPEnv := { fetch := fun _ => some ⟨none⟩ }

/-- Final state of the C9 Link Collector run: one fetch of page 1,
preceded by a sleep of exactly the 2-second base delay — no jitter. -/
def c9St : LPState :=
  { collected := [], current_page := 1, checkpoint := none, output := some [],
    trace := [PEvent.sleep 2, PEvent.fetch 1] }

/-- Detail Fetcher environment for C9: every fetch succeeds and the
`random.uniform(0, 2)` draw is always `3/2`. -/
def c9DFEnv : DFEnv :=
  { fetch := fun _ => some "x", jitter := fun _ => 3 / 2,
    parseExn := fun _ => false, saveExn := fun _ => false }

/-- Detail Fetcher configuration for C9: start at 0, no truncation,
2-second base delay. -/
def c9DFCfg : DFConfig := { start_from := 0, max_products := none, request_delay := 2 }

/-- Environment for the C10 counterexample: every fetch fails, so no
product ever succeeds. -/
def c10Env : DFEnv :=
  { fetch := fun _ => none, jitter := fun _ => 0,
    parseExn := fun _ => false, saveExn := fun _ => false }

/-- Environment for the C7 counterexample: every download attempt returns
HTTP 404 (no exception is raised, so the `except` branch — and with it the
1-second pause — is never taken). -/
def c7Env : DLEnv :=
  { download := fun _ _ => HttpResp.resp 404 "", urljoin := fun _ rel => rel }

/-- A product page with a single gallery image candidate `"u"`. -/
def c7Dom : Dom := { priceTexts := [], info := none, gallery := [some "u"] }

/-! ## Basic lemmas about the Detail Fetcher loop -/

theorem mem_intRangeGo {i lo : Int} {n : Nat} :
    i ∈ intRangeGo lo n ↔ lo ≤ i ∧ i < lo + n := by
  induction n generalizing lo with
  | zero => simp [intRangeGo]
  | succ n ih =>
    simp only [intRangeGo, List.mem_cons, ih]
    omega

theorem mem_intRange {lo hi i : Int} : i ∈ intRange lo hi ↔ lo ≤ i ∧ i < hi := by
  unfold intRange
  rw [mem_intRangeGo]
  omega

theorem nodup_intRangeGo (lo : Int) (n : Nat) : (intRangeGo lo n).Nodup := by
  induction n generalizing lo with
  | zero => simp [intRangeGo]
  | succ n ih =>
    simp only [intRangeGo, List.nodup_cons, ih, and_true]
    rw [mem_intRangeGo]
    omega

theorem nodup_intRange (lo hi : Int) : (intRange lo hi).Nodup :=
  nodup_intRangeGo lo _

theorem pairTrace_append (f : Int → ℚ) (a b : List Int) :
    pairTrace f (a ++ b) = pairTrace f a ++ pairTrace f b := by
  induction a with
  | nil => rfl
  | cons k ks ih => simp [pairTrace, ih]

theorem traceFetched_append (a b : List PEvent) :
    traceFetched (a ++ b) = traceFetched a ++ traceFetched b := by
  unfold traceFetched
  exact List.filterMap_append a b _

theorem traceFetched_pairTrace (f : Int → ℚ) (ks : List Int) :
    traceFetched (pairTrace f ks) = ks := by
  induction ks with
  | nil => rfl
  | cons k ks ih => simp [pairTrace, traceFetched, List.filterMap_cons] at ih ⊢; exact ih

theorem sleep_mem_pairTrace {f : Int → ℚ} {ks : List Int} {d : ℚ}
    (h : PEvent.sleep d ∈ pairTrace f ks) : ∃ k ∈ ks, d = f k := by
  induction ks with
  | nil => simp [pairTrace] at h
  | cons k ks ih =>
    simp only [pairTrace, List.mem_cons] at h
    rcases h with h | h | h
    · exact ⟨k, by simp, (PEvent.sleep.injEq _ _).mp h⟩
    · exact absurd h (by simp)
    · rcases ih h with ⟨k', hk', hd⟩
      exact ⟨k', by simp [hk'], hd⟩

theorem dfProcess_processed (env : DFEnv) (cfg : DFConfig) (st : DFState) (idx : Int) :
    (dfProcess env cfg st idx).processed = st.processed ++ [idx] := by
  unfold dfProcess
  cases env.fetch idx with
  | none => rfl
  | some html =>
    by_cases h1 : html = "" <;> by_cases h2 : env.parseExn idx <;>
      by_cases h3 : env.saveExn idx <;> simp [h1, h2, h3]

theorem dfProcess_trace (env : DFEnv) (cfg : DFConfig) (st : DFState) (idx : Int) :
    (dfProcess env cfg st idx).trace =
      st.trace ++ [PEvent.sleep (cfg.request_delay + env.jitter idx), PEvent.fetch idx] := by
  unfold dfProcess
  cases env.fetch idx with
  | none => rfl
  | some html =>
    by_cases h1 : html = "" <;> by_cases h2 : env.parseExn idx <;>
      by_cases h3 : env.saveExn idx <;> simp [h1, h2, h3]

theorem dfProcess_checkpoint (env : DFEnv) (cfg : DFConfig) (st : DFState) (idx : Int) :
    (dfProcess env cfg st idx).checkpoint =
      if dfSuccess env idx then some (CPFile.valid idx) else st.checkpoint := by
  unfold dfProcess dfSuccess
  cases env.fetch idx with
  | none => simp
  | some html =>
    by_cases h1 : html = "" <;> by_cases h2 : env.parseExn idx <;>
      by_cases h3 : env.saveExn idx <;> simp [h1, h2, h3]

theorem dfProcess_savedIdxs (env : DFEnv) (cfg : DFConfig) (st : DFState) (idx : Int) :
    (dfProcess env cfg st idx).savedIdxs =
      if dfSuccess env idx then st.savedIdxs ++ [idx] else st.savedIdxs := by
  unfold dfProcess dfSuccess
  cases env.fetch idx with
  | none => simp
  | some html =>
    by_cases h1 : html = "" <;> by_cases h2 : env.parseExn idx <;>
      by_cases h3 : env.saveExn idx <;> simp [h1, h2, h3]

theorem dfLoop_processed (env : DFEnv) (cfg : DFConfig) (st : DFState) (l : List Int) :
    (dfLoop env cfg st l).processed = st.processed ++ l := by
  induction l generalizing st with
  | nil => simp [dfLoop]
  | cons idx rest ih =>
    simp [dfLoop, ih, dfProcess_processed]

theorem dfLoop_trace (env : DFEnv) (cfg : DFConfig) (st : DFState) (l : List Int) :
    (dfLoop env cfg st l).trace =
      st.trace ++ pairTrace (fun i => cfg.request_delay + env.jitter i) l := by
  induction l generalizing st with
  | nil => simp [dfLoop, pairTrace]
  | cons idx rest ih =>
    simp [dfLoop, ih, dfProcess_trace, pairTrace]

theorem dfLoop_checkpoint_of_no_success (env : DFEnv) (cfg : DFConfig) (st : DFState)
    (l : List Int) (h : ∀ i ∈ l, dfSuccess env i = false) :
    (dfLoop env cfg st l).checkpoint = st.checkpoint := by
  induction l generalizing st with
  | nil => rfl
  | cons idx rest ih =>
    have hidx : dfSuccess env idx = false := h idx (by simp)
    have hrest : ∀ i ∈ rest, dfSuccess env i = false := fun i hi => h i (by simp [hi])
    simp only [dfLoop]
    rw [ih _ hrest, dfProcess_checkpoint, hidx]
    simp

theorem dfRun_processed (env : DFEnv) (cfg : DFConfig) (links : List String)
    (cp : Option CPFile) :
    (dfRun env cfg links cp).processed =
      intRange (load_checkpoint cp cfg.start_from)
        ((load_links links cfg.max_products).length : Int) := by
  unfold dfRun
  simp [dfLoop_processed]

/-! ## Claim C1 — Detail Fetcher resume correctness -/

/-- Claim C1: for every product-URL list and every checkpoint
`{last_index: n}` with `n` an integer, `ProductDetailsParser.run`
processes exactly the indices `n+1 … len(list)-1` (each once) and no
index `≤ n`; with no checkpoint file, processing starts at the configured
start offset (`start_from`) and covers `start_from … len(list)-1`. -/
theorem c1_detail_fetcher_resume (env : DFEnv) (cfg : DFConfig) (links : List String)
    (n : Int) :
    (∀ i : Int, i ∈ (dfRun env cfg links (some (CPFile.valid n))).processed ↔
        n + 1 ≤ i ∧ i < ((load_links links cfg.max_products).length : Int)) ∧
    (dfRun env cfg links (some (CPFile.valid n))).processed.Nodup ∧
    (∀ i : Int, i ≤ n → i ∉ (dfRun env cfg links (some (CPFile.valid n))).processed) ∧
    (∀ i : Int, i ∈ (dfRun env cfg links none).processed ↔
        cfg.start_from ≤ i ∧ i < ((load_links links cfg.max_products).length : Int)) := by
  have h1 := dfRun_processed env cfg links (some (CPFile.valid n))
  have h2 := dfRun_processed env cfg links none
  simp only [load_checkpoint] at h1 h2
  refine ⟨?_, ?_, ?_, ?_⟩
  · intro i; rw [h1, mem_intRange]
  · rw [h1]; exact nodup_intRange _ _
  · intro i hi; rw [h1, mem_intRange]; omega
  · intro i; rw [h2, mem_intRange]

/-- Witness for C1: with a two-link list and checkpoint `{last_index: 0}`,
index 1 is processed (`0 + 1 ≤ 1 < 2`) and index 0 is not. -/
theorem c1_witness :
    (1 : Int) ∈ (dfRun ⟨fun _ => none, fun _ => 0, fun _ => false, fun _ => false⟩
        ⟨0, none, 0⟩ ["u", "v"] (some (CPFile.valid 0))).processed ∧
    (0 : Int) ∉ (dfRun ⟨fun _ => none, fun _ => 0, fun _ => false, fun _ => false⟩
        ⟨0, none, 0⟩ ["u", "v"] (some (CPFile.valid 0))).processed := by
  constructor
  · exact ((c1_detail_fetcher_resume _ _ _ 0).1 1).mpr (by constructor <;> decide)
  · exact (c1_detail_fetcher_resume _ _ _ 0).2.2.1 0 (by decide)

/-! ## Claim C6 — checkpoint written only on success -/

/-- Claim C6: for each index the Detail Fetcher visits, the checkpoint
file is updated to `{last_index: idx}` exactly when that index's page was
fetched (truthy html) and neither parse nor save raised; on a fetch
failure, a falsy page, or an exception during parse/save, the checkpoint
is left untouched and the loop simply continues with the remaining
indices. -/
theorem c6_checkpoint_only_on_success (env : DFEnv) (cfg : DFConfig) (st : DFState)
    (idx : Int) (rest : List Int) :
    (dfSuccess env idx = true →
      (dfProcess env cfg st idx).checkpoint = some (CPFile.valid idx)) ∧
    (dfSuccess env idx = false →
      (dfProcess env cfg st idx).checkpoint = st.checkpoint) ∧
    (∀ html, env.fetch idx = some html → html ≠ "" → env.parseExn idx = false →
      env.saveExn idx = false → dfSuccess env idx = true) ∧
    (env.fetch idx = none → dfSuccess env idx = false) ∧
    (env.parseExn idx = true → dfSuccess env idx = false) ∧
    (env.saveExn idx = true → dfSuccess env idx = false) ∧
    dfLoop env cfg st (idx :: rest) = dfLoop env cfg (dfProcess env cfg st idx) rest ∧
    (dfProcess env cfg st idx).processed = st.processed ++ [idx] := by
  refine ⟨?_, ?_, ?_, ?_, ?_, ?_, rfl, dfProcess_processed env cfg st idx⟩
  · intro h; rw [dfProcess_checkpoint, h]; simp
  · intro h; rw [dfProcess_checkpoint, h]; simp
  · intro html hf hne hp hs; simp [dfSuccess, hf, hne, hp, hs]
  · intro hf; simp [dfSuccess, hf]
  · intro hp; unfold dfSuccess; cases env.fetch idx <;> simp [hp]
  · intro hs; unfold dfSuccess; cases env.fetch idx <;> simp [hs]

/-- Witness for C6: a successful index 0 (fetch returns `"html"`, no
exceptions) updates the checkpoint to `{last_index: 0}`, and a failing
fetch leaves it in place. -/
theorem c6_witness :
    (dfProcess ⟨fun _ => some "html", fun _ => 0, fun _ => false, fun _ => false⟩
        ⟨0, none, 0⟩ ⟨some CPFile.badField, [], [], []⟩ 0).checkpoint =
      some (CPFile.valid 0) ∧
    (dfProcess ⟨fun _ => none, fun _ => 0, fun _ => false, fun _ => false⟩
        ⟨0, none, 0⟩ ⟨some CPFile.badField, [], [], []⟩ 0).checkpoint =
      some CPFile.badField := by
  constructor
  · exact (c6_checkpoint_only_on_success _ _ _ 0 []).1 (by decide)
  · exact (c6_checkpoint_only_on_success _ _ _ 0 []).2.1 (by decide)

/-! ## Claim C10 — corrupt Detail Fetcher checkpoint -/

/-- Counterexample to C10 as stated: start a run on a one-link list with a
corrupt (unparseable) checkpoint file and let every fetch fail.  The run
visits index 0, no product is ever saved — so the corrupt file is never
"overwritten by the first successful product" — and yet at the end of the
run the checkpoint file is gone (`run` deletes it after the loop),
contradicting "left in place until the first successful product
overwrites it". -/
theorem c10_counterexample :
    (dfRun c10Env ⟨0, none, 0⟩ ["u"] (some CPFile.corruptJson)).processed = [0] ∧
    (dfRun c10Env ⟨0, none, 0⟩ ["u"] (some CPFile.corruptJson)).savedIdxs = [] ∧
    (dfRun c10Env ⟨0, none, 0⟩ ["u"] (some CPFile.corruptJson)).checkpoint = none := by
  refine ⟨rfl, rfl, rfl⟩

/-- Claim C10 as amended: a checkpoint file that fails to parse as JSON,
or parses with a missing/non-int `last_index`, is ignored — the run
starts at the configured start offset exactly as if no checkpoint
existed; while the loop runs, the corrupt file stays in place until the
first fully successful index overwrites it with `{last_index: idx}`; and
when the run completes, the loop's cleanup deletes the checkpoint file
regardless. -/
theorem c10_corrupt_checkpoint_amended (env : DFEnv) (cfg : DFConfig)
    (links : List String) (bad : CPFile)
    (hbad : bad = CPFile.corruptJson ∨ bad = CPFile.badField) :
    load_checkpoint (some bad) cfg.start_from = cfg.start_from ∧
    (dfRun env cfg links (some bad)).processed = (dfRun env cfg links none).processed ∧
    (∀ (st : DFState) (l : List Int), (∀ i ∈ l, dfSuccess env i = false) →
      (dfLoop env cfg st l).checkpoint = st.checkpoint) ∧
    (∀ (st : DFState) (idx : Int), dfSuccess env idx = true →
      (dfProcess env cfg st idx).checkpoint = some (CPFile.valid idx)) ∧
    (dfRun env cfg links (some bad)).checkpoint = none := by
  have hload : load_checkpoint (some bad) cfg.start_from = cfg.start_from := by
    rcases hbad with h | h <;> rw [h] <;> rfl
  refine ⟨hload, ?_, ?_, ?_, ?_⟩
  · rw [dfRun_processed, dfRun_processed, hload]; rfl
  · intro st l h; exact dfLoop_checkpoint_of_no_success env cfg st l h
  · intro st idx h; rw [dfProcess_checkpoint, h]; simp
  · unfold dfRun; rfl

/-- Witness for C10 (amended): with a `badField` checkpoint and an
environment whose only index succeeds, the run starts from offset 0 and
the first success overwrites the file with `{last_index: 0}`. -/
theorem c10_witness :
    load_checkpoint (some CPFile.badField) 0 = 0 ∧
    (dfProcess ⟨fun _ => some "html", fun _ => 0, fun _ => false, fun _ => false⟩
        ⟨0, none, 0⟩ ⟨some CPFile.badField, [], [], []⟩ 0).checkpoint =
      some (CPFile.valid 0) := by
  have h := c10_corrupt_checkpoint_amended
    ⟨fun _ => some "html", fun _ => 0, fun _ => false, fun _ => false⟩
    ⟨0, none, 0⟩ [] CPFile.badField (Or.inr rfl)
  exact ⟨h.1, h.2.2.2.1 ⟨some CPFile.badField, [], [], []⟩ 0 (by decide)⟩

/-! ## Claim C8 — price parsing -/

theorem parse_product_page_price (dom : Dom) (url : String) :
    (parse_product_page dom url).price =
      (if 2 ≤ dom.priceTexts.length then dom.priceTexts[1]? else dom.priceTexts[0]?) ∧
    (parse_product_page dom url).old_price =
      (if 2 ≤ dom.priceTexts.length then dom.priceTexts[0]? else none) := by
  have hnil : dom.priceTexts.length = 0 → dom.priceTexts[0]? = none := by
    intro h
    rw [List.length_eq_zero.mp h]
    rfl
  unfold parse_product_page
  cases dom.info with
  | none =>
    split_ifs with h1 h2
    · exact ⟨rfl, rfl⟩
    · exact ⟨rfl, rfl⟩
    · exact ⟨(hnil (by omega)).symm, rfl⟩
  | some info =>
    obtain ⟨desc, items⟩ := info
    cases desc with
    | none =>
      split_ifs with h1 h2
      · exact ⟨rfl, rfl⟩
      · exact ⟨rfl, rfl⟩
      · exact ⟨(hnil (by omega)).symm, rfl⟩
    | some d =>
      split_ifs with h1 h2
      · exact ⟨rfl, rfl⟩
      · exact ⟨rfl, rfl⟩
      · exact ⟨(hnil (by omega)).symm, rfl⟩

/-- Claim C8: for every parsed product page, two or more price-marker
elements make the first `old_price` and the second `price`; exactly one
makes it `price` with `old_price` left `None`; none leaves both `None`. -/
theorem c8_price_parsing (dom : Dom) (url : String) :
    (∀ t0 t1 rest, dom.priceTexts = t0 :: t1 :: rest →
      (parse_product_page dom url).old_price = some t0 ∧
      (parse_product_page dom url).price = some t1) ∧
    (∀ t0, dom.priceTexts = [t0] →
      (parse_product_page dom url).price = some t0 ∧
      (parse_product_page dom url).old_price = none) ∧
    (dom.priceTexts = [] →
      (parse_product_page dom url).price = none ∧
      (parse_product_page dom url).old_price = none) := by
  obtain ⟨hpr, hol⟩ := parse_product_page_price dom url
  refine ⟨?_, ?_, ?_⟩
  · intro t0 t1 rest hp
    rw [hol, hpr, hp]
    have hlen : 2 ≤ (t0 :: t1 :: rest).length := by simp
    rw [if_pos hlen, if_pos hlen]
    simp
  · intro t0 hp
    rw [hol, hpr, hp]
    norm_num
  · intro hp
    rw [hol, hpr, hp]
    norm_num

/-- Witness for C8, on the spec's own example: price elements
`["999", "1499"]` parse to `old_price = "999"`, `price = "1499"`, and a
single `["1499"]` parses to `price = "1499"`, `old_price = None`. -/
theorem c8_witness :
    (parse_product_page ⟨["999", "1499"], none, []⟩ "u").old_price = some "999" ∧
    (parse_product_page ⟨["999", "1499"], none, []⟩ "u").price = some "1499" ∧
    (parse_product_page ⟨["1499"], none, []⟩ "u").price = some "1499" ∧
    (parse_product_page ⟨["1499"], none, []⟩ "u").old_price = none := by
  have h2 := (c8_price_parsing ⟨["999", "1499"], none, []⟩ "u").1 "999" "1499" [] rfl
  have h1 := (c8_price_parsing ⟨["1499"], none, []⟩ "u").2.1 "1499" rfl
  exact ⟨h2.1, h2.2, h1.1, h1.2⟩

/-! ## Basic lemmas about the Link Collector loop -/

theorem linkFoldStep_sub (collected acc : List String) (href? : Option String)
    (h1 : acc.Nodup) (h2 : ∀ u ∈ acc, u ∉ collected) :
    (linkFoldStep collected acc href?).Nodup ∧
    (∀ u ∈ linkFoldStep collected acc href?, u ∉ collected) ∧
    (∃ t, linkFoldStep collected acc href? = acc ++ t) := by
  unfold linkFoldStep
  cases href? with
  | none => exact ⟨h1, h2, [], by simp⟩
  | some href =>
    simp only []
    split_ifs with ha hb hc
    · exact ⟨h1, h2, [], by simp⟩
    · exact ⟨h1, h2, [], by simp⟩
    · refine ⟨?_, ?_, [_], rfl⟩
      · rw [List.nodup_append]
        push_neg at hc
        exact ⟨h1, List.nodup_singleton _, by
          intro a ha' hb'
          simp only [List.mem_singleton] at hb'
          exact hc.1 (hb' ▸ ha')⟩
      · intro u hu
        rcases List.mem_append.mp hu with h | h
        · exact h2 u h
        · simp only [List.mem_singleton] at h
          push_neg at hc
          exact h ▸ hc.2
    · exact ⟨h1, h2, [], by simp⟩

theorem foldl_linkFoldStep_sub (collected : List String) (cards : List (Option String)) :
    ∀ acc : List String, acc.Nodup → (∀ u ∈ acc, u ∉ collected) →
      (cards.foldl (linkFoldStep collected) acc).Nodup ∧
      (∀ u ∈ cards.foldl (linkFoldStep collected) acc, u ∉ collected) := by
  induction cards with
  | nil => intro acc h1 h2; exact ⟨h1, h2⟩
  | cons c cs ih =>
    intro acc h1 h2
    obtain ⟨h1', h2', -⟩ := linkFoldStep_sub collected acc c h1 h2
    simpa using ih (linkFoldStep collected acc c) h1' h2'

/-- The links a page contributes are themselves duplicate-free and
disjoint from the already-collected links. -/
theorem parse_links_sub (collected : List String) (html : LPHtml) :
    (parse_links_from_html collected html).Nodup ∧
    ∀ u ∈ parse_links_from_html collected html, u ∉ collected := by
  unfold parse_links_from_html
  cases html.grid with
  | none => simp
  | some cards => exact foldl_linkFoldStep_sub collected cards [] (by simp) (by simp)

/-- `lpIter` equation: stop condition (a), accumulated count at max. -/
theorem lpIter_eq_max {env : LPEnv} {cfg : LPConfig} {st : LPState}
    (hmax : cfg.max_links ≤ (st.collected.length : Int)) :
    lpIter env cfg st = IterResult.stop StopReason.maxLinks st := by
  unfold lpIter
  rw [if_pos hmax]

/-- `lpIter` equation: stop condition (b), fetch failed (checked only
when (a) did not fire). -/
theorem lpIter_eq_fetchFail {env : LPEnv} {cfg : LPConfig} {st : LPState}
    (hmax : ¬ cfg.max_links ≤ (st.collected.length : Int))
    (hf : env.fetch (pageUrl cfg st.current_page) = none) :
    lpIter env cfg st = IterResult.stop StopReason.fetchFail (lpFetchTraced cfg st) := by
  unfold lpIter
  rw [if_neg hmax, hf]

/-- `lpIter` equation: stop condition (c), zero new links (checked only
when (a) and (b) did not fire). -/
theorem lpIter_eq_noNewLinks {env : LPEnv} {cfg : LPConfig} {st : LPState} {html : LPHtml}
    (hmax : ¬ cfg.max_links ≤ (st.collected.length : Int))
    (hf : env.fetch (pageUrl cfg st.current_page) = some html)
    (hnl : parse_links_from_html st.collected html = []) :
    lpIter env cfg st = IterResult.stop StopReason.noNewLinks (lpFetchTraced cfg st) := by
  unfold lpIter
  rw [if_neg hmax, hf]
  simp [hnl]

/-- `lpIter` equation: stop condition (d), min links reached together
with a truthy end-page limit (checked only after the page's links were
appended and the checkpoint persisted). -/
theorem lpIter_eq_endPage {env : LPEnv} {cfg : LPConfig} {st : LPState} {html : LPHtml}
    (hmax : ¬ cfg.max_links ≤ (st.collected.length : Int))
    (hf : env.fetch (pageUrl cfg st.current_page) = some html)
    (hnl : parse_links_from_html st.collected html ≠ [])
    (hstop : endPageStop cfg
      (((st.collected ++ parse_links_from_html st.collected html).length : Int))
      st.current_page = true) :
    lpIter env cfg st = IterResult.stop StopReason.endPage
      { collected := st.collected ++ parse_links_from_html st.collected html,
        current_page := st.current_page,
        checkpoint := some (st.collected ++ parse_links_from_html st.collected html,
          st.current_page),
        output := st.output,
        trace := st.trace ++ [PEvent.sleep cfg.request_delay, PEvent.fetch st.current_page] } := by
  unfold lpIter
  rw [if_neg hmax, hf]
  simp only [lpFetchTraced]
  rw [if_neg hnl, if_pos hstop]

/-- `lpIter` equation: fall through to the next iteration — the page's
links were appended, the checkpoint persisted with the unincremented
`current_page`, no stop condition fired, and `current_page` was
incremented. -/
theorem lpIter_eq_next {env : LPEnv} {cfg : LPConfig} {st : LPState} {html : LPHtml}
    (hmax : ¬ cfg.max_links ≤ (st.collected.length : Int))
    (hf : env.fetch (pageUrl cfg st.current_page) = some html)
    (hnl : parse_links_from_html st.collected html ≠ [])
    (hstop : endPageStop cfg
      (((st.collected ++ parse_links_from_html st.collected html).length : Int))
      st.current_page = false) :
    lpIter env cfg st = IterResult.next
      { collected := st.collected ++ parse_links_from_html st.collected html,
        current_page := st.current_page + 1,
        checkpoint := some (st.collected ++ parse_links_from_html st.collected html,
          st.current_page),
        output := st.output,
        trace := st.trace ++ [PEvent.sleep cfg.request_delay, PEvent.fetch st.current_page] } := by
  unfold lpIter
  rw [if_neg hmax, hf]
  simp only [lpFetchTraced]
  rw [if_neg hnl, if_neg (by rw [hstop]; exact Bool.false_ne_true)]

/-- Case analysis on one Link Collector iteration: either the max-links
stop fires (leaving the state untouched), or the page is fetched — in
which case the state gains exactly this page's sleep/fetch events and, if
the page contributed links, exactly those links and a fresh checkpoint. -/
theorem lpIter_shape (env : LPEnv) (cfg : LPConfig) (st : LPState) :
    (cfg.max_links ≤ (st.collected.length : Int) ∧
      lpIter env cfg st = IterResult.stop StopReason.maxLinks st) ∨
    ((st.collected.length : Int) < cfg.max_links ∧
      ((∃ st', (lpIter env cfg st = IterResult.stop StopReason.fetchFail st' ∨
           lpIter env cfg st = IterResult.stop StopReason.noNewLinks st') ∧
         st'.collected = st.collected ∧ st'.checkpoint = st.checkpoint ∧
         st'.current_page = st.current_page ∧ st'.output = st.output ∧
         st'.trace = st.trace ++ [PEvent.sleep cfg.request_delay, PEvent.fetch st.current_page]) ∨
       (∃ st' html, env.fetch (pageUrl cfg st.current_page) = some html ∧
         (lpIter env cfg st = IterResult.stop StopReason.endPage st' ∨
          lpIter env cfg st = IterResult.next st') ∧
         parse_links_from_html st.collected html ≠ [] ∧
         st'.collected = st.collected ++ parse_links_from_html st.collected html ∧
         st'.checkpoint = some (st'.collected, st.current_page) ∧
         (st'.current_page = st.current_page ∨ st'.current_page = st.current_page + 1) ∧
         st'.output = st.output ∧
         st'.trace = st.trace ++ [PEvent.sleep cfg.request_delay, PEvent.fetch st.current_page]))) := by
  by_cases hmax : cfg.max_links ≤ (st.collected.length : Int)
  · exact Or.inl ⟨hmax, lpIter_eq_max hmax⟩
  · refine Or.inr ⟨by omega, ?_⟩
    cases hf : env.fetch (pageUrl cfg st.current_page) with
    | none =>
      exact Or.inl ⟨lpFetchTraced cfg st, Or.inl (lpIter_eq_fetchFail hmax hf),
        rfl, rfl, rfl, rfl, rfl⟩
    | some html =>
      by_cases hnl : parse_links_from_html st.collected html = []
      · exact Or.inl ⟨lpFetchTraced cfg st, Or.inr (lpIter_eq_noNewLinks hmax hf hnl),
          rfl, rfl, rfl, rfl, rfl⟩
      · cases hstop : endPageStop cfg
            (((st.collected ++ parse_links_from_html st.collected html).length : Int))
            st.current_page with
        | true =>
          exact Or.inr ⟨_, html, rfl, Or.inl (lpIter_eq_endPage hmax hf hnl hstop),
            hnl, rfl, rfl, Or.inl rfl, rfl, rfl⟩
        | false =>
          exact Or.inr ⟨_, html, rfl, Or.inr (lpIter_eq_next hmax hf hnl hstop),
            hnl, rfl, rfl, Or.inr rfl, rfl, rfl⟩

/-- Generic loop invariant: a property preserved by every iteration holds
at the loop's exit state. -/
theorem lpLoop_reaches {env : LPEnv} {cfg : LPConfig} (P : LPState → Prop)
    (hnext : ∀ a b, lpIter env cfg a = IterResult.next b → P a → P b)
    (hstop : ∀ a b r, lpIter env cfg a = IterResult.stop r b → P a → P b) :
    ∀ (fuel : Nat) (st : LPState) (r : StopReason) (st' : LPState),
      lpLoop env cfg fuel st = some (r, st') → P st → P st' := by
  intro fuel
  induction fuel with
  | zero => intro st r st' h; simp [lpLoop] at h
  | succ fuel ih =>
    intro st r st' h hP
    unfold lpLoop at h
    cases hiter : lpIter env cfg st with
    | stop rr b =>
      rw [hiter] at h
      simp only [Option.some.injEq, Prod.mk.injEq] at h
      obtain ⟨rfl, rfl⟩ := h
      exact hstop _ _ _ hiter hP
    | next b =>
      rw [hiter] at h
      exact ih b r st' h (hnext _ _ hiter hP)

/-- Destructuring a successful `lpRun`: the loop exited in some state, and
`save_results` copied its `collected_links` into the output file. -/
theorem lpRun_dest {env : LPEnv} {cfg : LPConfig} {fuel : Nat}
    {cp : Option (List String × Int)} {r : StopReason} {st : LPState}
    (h : lpRun env cfg fuel cp = some (r, st)) :
    ∃ st0, lpLoop env cfg fuel (lpInit cfg cp) = some (r, st0) ∧
      st = { st0 with output := some st0.collected } := by
  unfold lpRun at h
  cases hloop : lpLoop env cfg fuel (lpInit cfg cp) with
  | none => rw [hloop] at h; cases h
  | some p =>
    rw [hloop] at h
    obtain ⟨r0, st0⟩ := p
    simp only [Option.some.injEq, Prod.mk.injEq] at h
    obtain ⟨rfl, rfl⟩ := h
    exact ⟨st0, rfl, rfl⟩

/-! ## Claim C3 — stop-condition precedence of the Link Collector -/

/-- Claim C3: once the accumulated count has reached `max_links` the loop
stops at its next check without fetching any further page (first
conjunct — the state, trace included, is returned untouched); links are
only ever appended from a state strictly below `max_links`, so the final
count can overshoot by at most the one page's links (second conjunct);
and one iteration checks the four stop conditions in source order —
(a) max reached, (b) fetch failed, (c) zero new links, (d) min reached
with a truthy end-page limit reached — first true wins (remaining
conjuncts, where each later condition is reached only with the earlier
ones false; (d) is evaluated after the page's links were appended and the
checkpoint persisted, with the still-unincremented `current_page`). -/
theorem c3_stop_precedence (env : LPEnv) (cfg : LPConfig) :
    (∀ (fuel : Nat) (st : LPState), cfg.max_links ≤ (st.collected.length : Int) →
      lpLoop env cfg (fuel + 1) st = some (StopReason.maxLinks, st)) ∧
    (∀ st st' : LPState,
      (lpIter env cfg st = IterResult.next st' ∨
       lpIter env cfg st = IterResult.stop StopReason.endPage st') →
      (st.collected.length : Int) < cfg.max_links ∧
      ∃ new, new ≠ [] ∧ st'.collected = st.collected ++ new) ∧
    (∀ st : LPState, lpIter env cfg st = IterResult.stop StopReason.maxLinks st ↔
      cfg.max_links ≤ (st.collected.length : Int)) ∧
    (∀ st : LPState, (st.collected.length : Int) < cfg.max_links →
      env.fetch (pageUrl cfg st.current_page) = none →
      lpIter env cfg st = IterResult.stop StopReason.fetchFail (lpFetchTraced cfg st)) ∧
    (∀ (st : LPState) (html : LPHtml), (st.collected.length : Int) < cfg.max_links →
      env.fetch (pageUrl cfg st.current_page) = some html →
      parse_links_from_html st.collected html = [] →
      lpIter env cfg st = IterResult.stop StopReason.noNewLinks (lpFetchTraced cfg st)) ∧
    (∀ (st : LPState) (html : LPHtml), (st.collected.length : Int) < cfg.max_links →
      env.fetch (pageUrl cfg st.current_page) = some html →
      parse_links_from_html st.collected html ≠ [] →
      endPageStop cfg ((st.collected ++ parse_links_from_html st.collected html).length : Int)
        st.current_page = true →
      lpIter env cfg st = IterResult.stop StopReason.endPage
        { collected := st.collected ++ parse_links_from_html st.collected html,
          current_page := st.current_page,
          checkpoint := some (st.collected ++ parse_links_from_html st.collected html,
            st.current_page),
          output := st.output,
          trace := st.trace ++ [PEvent.sleep cfg.request_delay,
            PEvent.fetch st.current_page] }) ∧
    (∀ (st : LPState) (html : LPHtml), (st.collected.length : Int) < cfg.max_links →
      env.fetch (pageUrl cfg st.current_page) = some html →
      parse_links_from_html st.collected html ≠ [] →
      endPageStop cfg ((st.collected ++ parse_links_from_html st.collected html).length : Int)
        st.current_page = false →
      lpIter env cfg st = IterResult.next
        { collected := st.collected ++ parse_links_from_html st.collected html,
          current_page := st.current_page + 1,
          checkpoint := some (st.collected ++ parse_links_from_html st.collected html,
            st.current_page),
          output := st.output,
          trace := st.trace ++ [PEvent.sleep cfg.request_delay,
            PEvent.fetch st.current_page] }) := by
  refine ⟨?_, ?_, ?_, ?_, ?_, ?_, ?_⟩
  · intro fuel st hmax
    unfold lpLoop
    rw [lpIter_eq_max hmax]
  · intro st st' hor
    rcases lpIter_shape env cfg st with ⟨hmax, heq⟩ | ⟨hlt, hcase⟩
    · rcases hor with h | h <;> rw [heq] at h <;> simp at h
    · rcases hcase with ⟨st'', hor2, -, -, -, -, -⟩ | ⟨st'', html, -, hor2, hnl, hcol, -, -, -, -⟩
      · exfalso
        rcases hor with h | h <;> rcases hor2 with h2 | h2 <;> rw [h2] at h <;> simp at h
      · refine ⟨hlt, parse_links_from_html st.collected html, hnl, ?_⟩
        have hst : st'' = st' := by
          rcases hor with h | h
          · rcases hor2 with h2 | h2
            · rw [h2] at h; exact absurd h (by simp)
            · rw [h2] at h; injection h
          · rcases hor2 with h2 | h2
            · rw [h2] at h
              injection h with hr hs
            · rw [h2] at h; exact absurd h (by simp)
        rw [← hst, hcol]
  · intro st
    constructor
    · intro heq
      by_contra hmax
      rcases lpIter_shape env cfg st with ⟨h, -⟩ | ⟨-, hcase⟩
      · exact hmax h
      · rcases hcase with ⟨st', hor, -, -, -, -, -⟩ | ⟨st', html, -, hor, -, -, -, -, -, -⟩ <;>
          rcases hor with h | h <;> rw [h] at heq <;> simp at heq
    · exact lpIter_eq_max
  · intro st hlt hf
    exact lpIter_eq_fetchFail (by omega) hf
  · intro st html hlt hf hnl
    exact lpIter_eq_noNewLinks (by omega) hf hnl
  · intro st html hlt hf hnl hstop
    exact lpIter_eq_endPage (by omega) hf hnl hstop
  · intro st html hlt hf hnl hstop
    exact lpIter_eq_next (by omega) hf hnl hstop

/-- How one iteration relates a state to its successor, whether the
iteration stopped or fell through: either the max-links stop returned the
state untouched, or the state gained this page's sleep/fetch events and
possibly its links and a fresh checkpoint. -/
theorem lpIter_trans {env : LPEnv} {cfg : LPConfig} {a b : LPState}
    (h : lpIter env cfg a = IterResult.next b ∨
      ∃ r, lpIter env cfg a = IterResult.stop r b) :
    (cfg.max_links ≤ (a.collected.length : Int) ∧ b = a) ∨
    (b.collected = a.collected ∧ b.checkpoint = a.checkpoint ∧
      b.current_page = a.current_page ∧ b.output = a.output ∧
      b.trace = a.trace ++ [PEvent.sleep cfg.request_delay, PEvent.fetch a.current_page]) ∨
    (∃ html, env.fetch (pageUrl cfg a.current_page) = some html ∧
      parse_links_from_html a.collected html ≠ [] ∧
      b.collected = a.collected ++ parse_links_from_html a.collected html ∧
      b.checkpoint = some (b.collected, a.current_page) ∧
      (b.current_page = a.current_page ∨ b.current_page = a.current_page + 1) ∧
      b.output = a.output ∧
      b.trace = a.trace ++ [PEvent.sleep cfg.request_delay, PEvent.fetch a.current_page]) := by
  rcases lpIter_shape env cfg a with ⟨hmax, heq⟩ | ⟨hlt, hcase⟩
  · rcases h with h | ⟨r, h⟩
    · rw [heq] at h; exact absurd h (by simp)
    · rw [heq] at h
      injection h with hr hb
      exact Or.inl ⟨hmax, hb.symm⟩
  · rcases hcase with ⟨st', hor, hcol, hcp, hpage, hout, htrace⟩ |
      ⟨st', html, hf, hor, hnl, hcol, hcp, hpage, hout, htrace⟩
    · have hb : b = st' := by
        rcases h with h | ⟨r, h⟩
        · rcases hor with h2 | h2 <;> (rw [h2] at h; exact absurd h (by simp))
        · rcases hor with h2 | h2 <;>
            (rw [h2] at h; injection h with hr hb; exact hb.symm)
      subst hb
      exact Or.inr (Or.inl ⟨hcol, hcp, hpage, hout, htrace⟩)
    · have hb : b = st' := by
        rcases h with h | ⟨r, h⟩
        · rcases hor with h2 | h2
          · rw [h2] at h; exact absurd h (by simp)
          · rw [h2] at h; injection h with hb; exact hb.symm
        · rcases hor with h2 | h2
          · rw [h2] at h; injection h with hr hb; exact hb.symm
          · rw [h2] at h; exact absurd h (by simp)
      subst hb
      exact Or.inr (Or.inr ⟨html, hf, hnl, hcol, hcp, hpage, hout, htrace⟩)

/-- The fetch events contributed by one page's sleep/fetch chunk. -/
theorem traceFetched_chunk (d : ℚ) (k : Int) :
    traceFetched [PEvent.sleep d, PEvent.fetch k] = [k] := rfl

/-! ## Claim C2 — Link Collector resume -/

/-- Counterexample to C2 as stated: `save_checkpoint` persists
`current_page` before it is incremented, so the checkpoint written after
completing page 1 is `{links: [lamodaA], current_page: 1}` (first run,
which then dies on the failed fetch of page 2). A run resumed from that
checkpoint re-fetches page 1 — a page the interrupted run had already
completed — and, because its links are already collected, immediately
stops with "no new links". -/
theorem c2_counterexample :
    lpRun c2Env lpCfgEx 9 none = some (StopReason.fetchFail, c2St1) ∧
    c2St1.checkpoint = some ([lamodaA], 1) ∧
    lpFetched c2St1 = [1, 2] ∧
    lpRun c2Env lpCfgEx 9 (some ([lamodaA], 1)) = some (StopReason.noNewLinks, c2St2) ∧
    lpFetched c2St2 = [1] :=
  ⟨rfl, rfl, rfl, rfl, rfl⟩

/-- Appending one page's sleep/fetch chunk to the trace appends that page
to the fetched-pages list. -/
theorem lpFetched_of_trace_append {a b : LPState} {d : ℚ} {k : Int}
    (htrace : b.trace = a.trace ++ [PEvent.sleep d, PEvent.fetch k]) :
    lpFetched b = lpFetched a ++ [k] := by
  simp only [lpFetched, htrace, traceFetched_append, traceFetched_chunk]

/-- Claim C2 as amended: a run resumed from a persisted checkpoint
`{links, current_page: p}` continues at page `p` — which is the last page
the interrupted run completed, so that one page is fetched again — and
fetches no page before `p`.  Formally: every page fetched by the resumed
run is `≥ p`, and (unless the loaded link count already meets
`max_links`) the first page it fetches is exactly `p`. -/
theorem c2_link_collector_resume_amended (env : LPEnv) (cfg : LPConfig) (fuel : Nat)
    (links : List String) (p : Int) (r : StopReason) (st : LPState)
    (h : lpRun env cfg fuel (some (links, p)) = some (r, st)) :
    (∀ q ∈ lpFetched st, p ≤ q) ∧
    ((links.length : Int) < cfg.max_links → (lpFetched st).head? = some p) := by
  obtain ⟨st0, hloop, hst⟩ := lpRun_dest h
  have hst_fetched : lpFetched st = lpFetched st0 := by
    simp only [lpFetched, hst]
  have htrans : ∀ a b : LPState,
      (lpIter env cfg a = IterResult.next b ∨
        ∃ rr, lpIter env cfg a = IterResult.stop rr b) →
      (p ≤ a.current_page ∧ ∀ q ∈ lpFetched a, p ≤ q) →
      (p ≤ b.current_page ∧ ∀ q ∈ lpFetched b, p ≤ q) := by
    intro a b hab hPa
    obtain ⟨hPa1, hPa2⟩ := hPa
    rcases lpIter_trans hab with ⟨-, rfl⟩ |
        ⟨-, -, hpage, -, htrace⟩ | ⟨html, -, -, -, -, hpage, -, htrace⟩
    · exact ⟨hPa1, hPa2⟩
    · refine ⟨by rw [hpage]; exact hPa1, ?_⟩
      intro q hq
      rw [lpFetched_of_trace_append htrace] at hq
      rcases List.mem_append.mp hq with hq | hq
      · exact hPa2 q hq
      · simp only [List.mem_singleton] at hq
        exact hq ▸ hPa1
    · refine ⟨by rcases hpage with h' | h' <;> rw [h'] <;> omega, ?_⟩
      intro q hq
      rw [lpFetched_of_trace_append htrace] at hq
      rcases List.mem_append.mp hq with hq | hq
      · exact hPa2 q hq
      · simp only [List.mem_singleton] at hq
        exact hq ▸ hPa1
  have hP0 : p ≤ (lpInit cfg (some (links, p))).current_page ∧
      ∀ q ∈ lpFetched (lpInit cfg (some (links, p))), p ≤ q := by
    refine ⟨le_refl p, ?_⟩
    intro q hq
    simp [lpInit, lpFetched, traceFetched] at hq
  have hPfin := lpLoop_reaches
    (fun x => p ≤ x.current_page ∧ ∀ q ∈ lpFetched x, p ≤ q)
    (fun a b hab hPa => htrans a b (Or.inl hab) hPa)
    (fun a b rr hab hPa => htrans a b (Or.inr ⟨rr, hab⟩) hPa)
    fuel _ r st0 hloop hP0
  constructor
  · intro q hq
    rw [hst_fetched] at hq
    exact hPfin.2 q hq
  · intro hlt
    cases fuel with
    | zero => simp [lpLoop] at hloop
    | succ f =>
      unfold lpLoop at hloop
      have hinit_col : (lpInit cfg (some (links, p))).collected = links := rfl
      have hhead : ∀ b : LPState,
          (lpIter env cfg (lpInit cfg (some (links, p))) = IterResult.next b ∨
            ∃ rr, lpIter env cfg (lpInit cfg (some (links, p))) =
              IterResult.stop rr b) →
          lpFetched b = [p] := by
        intro b hab
        rcases lpIter_trans hab with ⟨hmax, -⟩ |
            ⟨-, -, -, -, htrace⟩ | ⟨html, -, -, -, -, -, -, htrace⟩
        · rw [hinit_col] at hmax; omega
        · rw [lpFetched_of_trace_append htrace]; rfl
        · rw [lpFetched_of_trace_append htrace]; rfl
      cases hiter : lpIter env cfg (lpInit cfg (some (links, p))) with
      | stop rr b =>
        rw [hiter] at hloop
        simp only [Option.some.injEq, Prod.mk.injEq] at hloop
        obtain ⟨-, rfl⟩ := hloop
        rw [hst_fetched, hhead b (Or.inr ⟨rr, hiter⟩)]
        rfl
      | next b =>
        rw [hiter] at hloop
        have hQstep : ∀ a c : LPState,
            (lpIter env cfg a = IterResult.next c ∨
              ∃ rr, lpIter env cfg a = IterResult.stop rr c) →
            (∃ rest, lpFetched a = p :: rest) →
            (∃ rest, lpFetched c = p :: rest) := by
          intro a c hac hQa
          obtain ⟨rest, hrest⟩ := hQa
          rcases lpIter_trans hac with ⟨-, rfl⟩ |
              ⟨-, -, -, -, htrace⟩ | ⟨html, -, -, -, -, -, -, htrace⟩
          · exact ⟨rest, hrest⟩
          · exact ⟨rest ++ [a.current_page],
              by rw [lpFetched_of_trace_append htrace, hrest]; rfl⟩
          · exact ⟨rest ++ [a.current_page],
              by rw [lpFetched_of_trace_append htrace, hrest]; rfl⟩
        have hQ := lpLoop_reaches (fun x => ∃ rest, lpFetched x = p :: rest)
          (fun a c hac hQa => hQstep a c (Or.inl hac) hQa)
          (fun a c rr hac hQa => hQstep a c (Or.inr ⟨rr, hac⟩) hQa)
          f b r st0 hloop ⟨[], hhead b (Or.inl hiter)⟩
        obtain ⟨rest, hrest⟩ := hQ
        rw [hst_fetched, hrest]
        rfl

/-- Witness for C2 (amended), on the resumed concrete run of the
counterexample: its first fetched page is the checkpointed page 1, and
every page it fetches (namely page 1) is `≥ 1`. -/
theorem c2_witness :
    (1 : Int) ≤ 1 ∧ (lpFetched c2St2).head? = some 1 := by
  have h := c2_link_collector_resume_amended c2Env lpCfgEx 9 [lamodaA] 1
    StopReason.noNewLinks c2St2 rfl
  exact ⟨h.1 1 (by decide), h.2 (by decide)⟩

/-! ## Claim C4 — dedup invariant of the Link Collector output -/

/-- Claim C4: for every run of the Link Collector — including one resumed
from a (program-written, hence duplicate-free) checkpoint — the link list
written to the output file is exactly the accumulated `collected_links`,
it contains no duplicates, it extends the initial list only by appending
(so first-seen discovery order is preserved), and every checkpoint the
run leaves behind holds a duplicate-free list that is itself a
by-appending-extended stage of the output. -/
theorem c4_dedup_invariant (env : LPEnv) (cfg : LPConfig) (fuel : Nat)
    (cp : Option (List String × Int)) (r : StopReason) (st : LPState)
    (hcp : ∀ links page, cp = some (links, page) → links.Nodup)
    (h : lpRun env cfg fuel cp = some (r, st)) :
    st.output = some st.collected ∧
    st.collected.Nodup ∧
    (∃ t, st.collected = (lpInit cfg cp).collected ++ t) ∧
    (∀ l pg, st.checkpoint = some (l, pg) → l.Nodup ∧ ∃ t, st.collected = l ++ t) := by
  obtain ⟨st0, hloop, hst⟩ := lpRun_dest h
  have htrans : ∀ a b : LPState,
      (lpIter env cfg a = IterResult.next b ∨
        ∃ rr, lpIter env cfg a = IterResult.stop rr b) →
      (a.collected.Nodup ∧ (∃ t, a.collected = (lpInit cfg cp).collected ++ t) ∧
        (∀ l pg, a.checkpoint = some (l, pg) → l.Nodup ∧ ∃ t, a.collected = l ++ t)) →
      (b.collected.Nodup ∧ (∃ t, b.collected = (lpInit cfg cp).collected ++ t) ∧
        (∀ l pg, b.checkpoint = some (l, pg) → l.Nodup ∧ ∃ t, b.collected = l ++ t)) := by
    intro a b hab hPa
    obtain ⟨hnd, ⟨t0, ht0⟩, hcpa⟩ := hPa
    rcases lpIter_trans hab with ⟨-, rfl⟩ |
        ⟨hcol, hcpb, -, -, -⟩ | ⟨html, -, -, hcol, hcpb, -, -, -⟩
    · exact ⟨hnd, ⟨t0, ht0⟩, hcpa⟩
    · rw [hcol, hcpb]
      exact ⟨hnd, ⟨t0, ht0⟩, hcpa⟩
    · obtain ⟨hnodupNew, hdisj⟩ := parse_links_sub a.collected html
      have hndb : b.collected.Nodup := by
        rw [hcol]
        rw [List.nodup_append]
        exact ⟨hnd, hnodupNew, fun x hx hx' => hdisj x hx' hx⟩
      refine ⟨hndb, ⟨t0 ++ parse_links_from_html a.collected html,
        by rw [hcol, ht0, List.append_assoc]⟩, ?_⟩
      intro l pg heq
      rw [hcpb] at heq
      injection heq with heq'
      injection heq' with hl hpg
      exact ⟨hl ▸ hndb, [], by rw [← hl, List.append_nil]⟩
  have hP0 : (lpInit cfg cp).collected.Nodup ∧
      (∃ t, (lpInit cfg cp).collected = (lpInit cfg cp).collected ++ t) ∧
      (∀ l pg, (lpInit cfg cp).checkpoint = some (l, pg) →
        l.Nodup ∧ ∃ t, (lpInit cfg cp).collected = l ++ t) := by
    cases cp with
    | none =>
      refine ⟨List.nodup_nil, ⟨[], rfl⟩, ?_⟩
      intro l pg heq
      cases heq
    | some lp =>
      obtain ⟨links, page⟩ := lp
      have hnd := hcp links page rfl
      refine ⟨hnd, ⟨[], by simp [lpInit]⟩, ?_⟩
      intro l pg heq
      simp only [lpInit, Option.some.injEq, Prod.mk.injEq] at heq
      exact ⟨heq.1 ▸ hnd, [], by simp [lpInit, heq.1]⟩
  have hPfin := lpLoop_reaches
    (fun x => x.collected.Nodup ∧ (∃ t, x.collected = (lpInit cfg cp).collected ++ t) ∧
      (∀ l pg, x.checkpoint = some (l, pg) → l.Nodup ∧ ∃ t, x.collected = l ++ t))
    (fun a b hab hPa => htrans a b (Or.inl hab) hPa)
    (fun a b rr hab hPa => htrans a b (Or.inr ⟨rr, hab⟩) hPa)
    fuel _ r st0 hloop hP0
  have hout : st.output = some st.collected := by rw [hst]
  have hcol : st.collected = st0.collected := by rw [hst]
  have hcpst : st.checkpoint = st0.checkpoint := by rw [hst]
  rw [hout, hcol, hcpst]
  exact ⟨rfl, hPfin.1, hPfin.2.1, hPfin.2.2⟩

/-- Witness for C4, on the concrete interrupted run of the C2
counterexample environment: its output equals its collected list and has
no duplicates. -/
theorem c4_witness :
    c2St1.output = some c2St1.collected ∧ c2St1.collected.Nodup := by
  have h := c4_dedup_invariant c2Env lpCfgEx 9 none StopReason.fetchFail c2St1
    (fun links page heq => by cases heq) rfl
  exact ⟨h.1, h.2.1⟩

/-- Witness for C3: with `max_links = 0` the loop stops at once without
fetching (state returned untouched), and on a page that yields one fresh
link the iteration appends it, checkpoints `{links, current_page}` with
the unincremented page number, and moves to the next page. -/
theorem c3_witness :
    lpLoop c2Env { lpCfgEx with max_links := 0 } 1
      (lpInit { lpCfgEx with max_links := 0 } none) =
      some (StopReason.maxLinks, lpInit { lpCfgEx with max_links := 0 } none) ∧
    lpIter c2Env lpCfgEx (lpInit lpCfgEx none) = IterResult.next
      { collected := [lamodaA], current_page := 2, checkpoint := some ([lamodaA], 1),
        output := none, trace := [PEvent.sleep 2, PEvent.fetch 1] } := by
  constructor
  · exact (c3_stop_precedence c2Env { lpCfgEx with max_links := 0 }).1 0
      (lpInit { lpCfgEx with max_links := 0 } none) (by decide)
  · exact (c3_stop_precedence c2Env lpCfgEx).2.2.2.2.2.2
      (lpInit lpCfgEx none) ⟨some [some "/p/a"]⟩ (by decide) rfl (by decide) (by decide)

/-! ## Claim C5 — per-item failure isolation -/

/-- Counterexample to C5 as stated: in the Link Collector, one page's
fetch failure is not converted into a skip — it terminates the run-level
loop.  Concretely, with page 1 and page 3 both serving fresh product
cards and only the fetch of page 2 failing, the run stops at page 2 with
reason `fetchFail`, never fetching the perfectly fetchable page 3, even
though the link count (1) is far below `max_links` (10). -/
theorem c5_counterexample :
    lpRun c5Env lpCfgEx 9 none = some (StopReason.fetchFail, c5St) ∧
    lpFetched c5St = [1, 2] ∧
    c5Env.fetch (pageUrl lpCfgEx 3) = some ⟨some [some "/p/c"]⟩ ∧
    ((c5St.collected.length : Int) < lpCfgEx.max_links) :=
  ⟨rfl, rfl, rfl, by decide⟩

/-- Claim C5 as amended — failure isolation holds only in the Detail
Fetcher.  There, a per-item failure (fetch returning `None` or falsy, or
parse/save raising inside the loop's `try`) is converted into a skip:
nothing is saved and no checkpoint is written for that index, yet the
index is visited and the loop goes on (second conjunct), and the sequence
of indices the run-level loop visits is completely independent of the
environment's failures, so that loop never terminates because of a single
item (first conjunct).  In the Link Collector isolation fails: a page
fetch failure reported by `get_page_html` is a stop condition, not a
skip — the run-level loop terminates at the first failing page (third
conjunct).  (A selenium navigation error or a checkpoint-write error in
the Link Collector is not even caught in the source and aborts the
process; that crash path is outside this model — see `LPEnv`.) -/
theorem c5_failure_isolation_amended :
    (∀ (env env' : DFEnv) (cfg : DFConfig) (links : List String) (cp : Option CPFile),
      (dfRun env cfg links cp).processed = (dfRun env' cfg links cp).processed) ∧
    (∀ (env : DFEnv) (cfg : DFConfig) (st : DFState) (idx : Int) (rest : List Int),
      dfSuccess env idx = false →
      (dfProcess env cfg st idx).checkpoint = st.checkpoint ∧
      (dfProcess env cfg st idx).savedIdxs = st.savedIdxs ∧
      (dfProcess env cfg st idx).processed = st.processed ++ [idx] ∧
      dfLoop env cfg st (idx :: rest) = dfLoop env cfg (dfProcess env cfg st idx) rest) ∧
    (∀ (env : LPEnv) (cfg : LPConfig) (st : LPState),
      (st.collected.length : Int) < cfg.max_links →
      env.fetch (pageUrl cfg st.current_page) = none →
      lpIter env cfg st = IterResult.stop StopReason.fetchFail (lpFetchTraced cfg st)) := by
  refine ⟨?_, ?_, ?_⟩
  · intro env env' cfg links cp
    rw [dfRun_processed, dfRun_processed]
  · intro env cfg st idx rest hfail
    refine ⟨?_, ?_, dfProcess_processed env cfg st idx, rfl⟩
    · rw [dfProcess_checkpoint, hfail]
      simp
    · rw [dfProcess_savedIdxs, hfail]
      simp
  · intro env cfg st hlt hf
    exact lpIter_eq_fetchFail (by omega) hf

/-- Witness for C5 (amended): an all-failing and an all-succeeding Detail
Fetcher environment visit the same indices; the all-failing environment's
index 0 is skipped (checkpoint untouched) yet visited; and the concrete
Link Collector iteration at failing page 2 stops with `fetchFail`. -/
theorem c5_witness :
    (dfRun c10Env c9DFCfg ["u"] none).processed =
      (dfRun c9DFEnv c9DFCfg ["u"] none).processed ∧
    (dfProcess c10Env c9DFCfg ⟨some CPFile.corruptJson, [], [], []⟩ 0).checkpoint =
      some CPFile.corruptJson ∧
    (dfProcess c10Env c9DFCfg ⟨some CPFile.corruptJson, [], [], []⟩ 0).processed = [0] ∧
    lpIter c5Env lpCfgEx (lpInit lpCfgEx (some ([lamodaA], 2))) =
      IterResult.stop StopReason.fetchFail
        (lpFetchTraced lpCfgEx (lpInit lpCfgEx (some ([lamodaA], 2)))) := by
  have hskip := c5_failure_isolation_amended.2.1 c10Env c9DFCfg
    ⟨some CPFile.corruptJson, [], [], []⟩ 0 [] (by decide)
  exact ⟨c5_failure_isolation_amended.1 c10Env c9DFEnv c9DFCfg ["u"] none,
    hskip.1, hskip.2.2.1,
    c5_failure_isolation_amended.2.2 c5Env lpCfgEx
      (lpInit lpCfgEx (some ([lamodaA], 2))) (by decide) rfl⟩

/-! ## Claim C9 — pacing before every fetch -/

/-- Counterexample to C9 as stated: the Link Collector's `get_page_html`
sleeps exactly `request_delay` — it draws no jitter at all (`random` is
not even imported there).  With base delay 2 and the jitter stream
constantly `3/2`, the concrete Link Collector run sleeps bare `2` before
its fetch, so its trace violates the spec's base-plus-drawn-jitter pacing
(`specPaced`), while the Detail Fetcher's trace satisfies it. -/
theorem c9_counterexample :
    lpRun c9Env lpCfgEx 3 none = some (StopReason.noNewLinks, c9St) ∧
    specPaced 2 (fun _ => 3 / 2) c9St.trace = false ∧
    (dfRun c9DFEnv c9DFCfg ["u"] none).trace =
      [PEvent.sleep (2 + 3 / 2), PEvent.fetch 0] ∧
    specPaced 2 (fun _ => 3 / 2) [PEvent.sleep (2 + 3 / 2), PEvent.fetch 0] = true := by
  refine ⟨rfl, ?_, rfl, ?_⟩
  · show (((2 : ℚ) == 2 + 3 / 2) && specPaced 2 (fun _ => 3 / 2) []) = false
    have hne : ((2 : ℚ) == 2 + 3 / 2) = false := by
      rw [beq_eq_false_iff_ne]
      norm_num
    rw [hne]
    rfl
  · show (((2 + 3 / 2 : ℚ) == 2 + 3 / 2) && specPaced 2 (fun _ => 3 / 2) []) = true
    rw [beq_self_eq_true]
    rfl

/-- Claim C9 as amended: before every fetch the Detail Fetcher sleeps
`request_delay + random.uniform(0, 2)` — its whole trace is sleep/fetch
pairs with exactly that duration, and with the draw in `[0, 2]` every
sleep lies in `[request_delay, request_delay + 2]`.  The Link Collector
also sleeps before every fetch, but for exactly the constant
`request_delay`, with no jitter term. -/
theorem c9_pacing_amended :
    (∀ (env : DFEnv) (cfg : DFConfig) (links : List String) (cp : Option CPFile),
      (dfRun env cfg links cp).trace =
        pairTrace (fun i => cfg.request_delay + env.jitter i)
          (dfRun env cfg links cp).processed) ∧
    (∀ (env : LPEnv) (cfg : LPConfig) (fuel : Nat) (cp : Option (List String × Int))
        (r : StopReason) (st : LPState), lpRun env cfg fuel cp = some (r, st) →
      st.trace = pairTrace (fun _ => cfg.request_delay) (lpFetched st)) ∧
    (∀ (env : DFEnv) (cfg : DFConfig) (links : List String) (cp : Option CPFile) (d : ℚ),
      (∀ i, 0 ≤ env.jitter i ∧ env.jitter i ≤ 2) →
      PEvent.sleep d ∈ (dfRun env cfg links cp).trace →
      cfg.request_delay ≤ d ∧ d ≤ cfg.request_delay + 2) := by
  have hdf : ∀ (env : DFEnv) (cfg : DFConfig) (links : List String) (cp : Option CPFile),
      (dfRun env cfg links cp).trace =
        pairTrace (fun i => cfg.request_delay + env.jitter i)
          (dfRun env cfg links cp).processed := by
    intro env cfg links cp
    unfold dfRun
    rw [dfLoop_trace, dfLoop_processed]
    simp
  refine ⟨hdf, ?_, ?_⟩
  · intro env cfg fuel cp r st h
    obtain ⟨st0, hloop, hst⟩ := lpRun_dest h
    have htrans : ∀ a b : LPState,
        (lpIter env cfg a = IterResult.next b ∨
          ∃ rr, lpIter env cfg a = IterResult.stop rr b) →
        a.trace = pairTrace (fun _ => cfg.request_delay) (lpFetched a) →
        b.trace = pairTrace (fun _ => cfg.request_delay) (lpFetched b) := by
      intro a b hab hPa
      rcases lpIter_trans hab with ⟨-, rfl⟩ |
          ⟨-, -, -, -, htrace⟩ | ⟨html, -, -, -, -, -, -, htrace⟩
      · exact hPa
      · rw [htrace, lpFetched_of_trace_append htrace, pairTrace_append, hPa]
        rfl
      · rw [htrace, lpFetched_of_trace_append htrace, pairTrace_append, hPa]
        rfl
    have hPfin := lpLoop_reaches
      (fun x => x.trace = pairTrace (fun _ => cfg.request_delay) (lpFetched x))
      (fun a b hab hPa => htrans a b (Or.inl hab) hPa)
      (fun a b rr hab hPa => htrans a b (Or.inr ⟨rr, hab⟩) hPa)
      fuel _ r st0 hloop (by cases cp with
        | none => rfl
        | some lp => obtain ⟨links, page⟩ := lp; rfl)
    have htr : st.trace = st0.trace := by rw [hst]
    have hfe : lpFetched st = lpFetched st0 := by simp only [lpFetched, hst]
    rw [htr, hfe]
    exact hPfin
  · intro env cfg links cp d hj hmem
    rw [hdf env cfg links cp] at hmem
    obtain ⟨i, -, hd⟩ := sleep_mem_pairTrace hmem
    obtain ⟨h0, h2⟩ := hj i
    constructor
    · rw [hd]; linarith
    · rw [hd]; linarith

/-- Witness for C9 (amended): the concrete Link Collector trace is a
bare-delay sleep/fetch pair, and the Detail Fetcher's `2 + 3/2` sleep
lies within `[2, 2 + 2]` given the jitter bound. -/
theorem c9_witness :
    c9St.trace = pairTrace (fun _ => lpCfgEx.request_delay) (lpFetched c9St) ∧
    (c9DFCfg.request_delay ≤ 2 + 3 / 2 ∧
      2 + 3 / 2 ≤ c9DFCfg.request_delay + 2) := by
  constructor
  · exact c9_pacing_amended.2.1 c9Env lpCfgEx 3 none StopReason.noNewLinks c9St rfl
  · exact c9_pacing_amended.2.2 c9DFEnv c9DFCfg ["u"] none (2 + 3 / 2)
      (fun i => by constructor <;> norm_num [c9DFEnv])
      (List.mem_cons_self _ _)

/-! ## Lemmas about the image-download retry loop -/

theorem tryAttempts_zero (dl : Nat → HttpResp) (url : String) (k : Nat) :
    tryAttempts dl url k 0 = ([], false) := rfl

theorem tryAttempts_succ_200 {dl : Nat → HttpResp} {url : String} {k n : Nat} {body : String}
    (h : dl k = HttpResp.resp 200 body) :
    tryAttempts dl url k (n + 1) =
      ([DLEvent.attempt url k, DLEvent.writeImage url body], true) := by
  unfold tryAttempts
  rw [h]
  simp

theorem tryAttempts_succ_other {dl : Nat → HttpResp} {url : String} {k n : Nat}
    {code : Int} {body : String} (h : dl k = HttpResp.resp code body) (hc : code ≠ 200) :
    tryAttempts dl url k (n + 1) =
      (DLEvent.attempt url k :: (tryAttempts dl url (k + 1) n).1,
        (tryAttempts dl url (k + 1) n).2) := by
  conv_lhs => unfold tryAttempts
  rw [h]
  simp [hc]

theorem tryAttempts_succ_exn {dl : Nat → HttpResp} {url : String} {k n : Nat}
    (h : dl k = HttpResp.exn) :
    tryAttempts dl url k (n + 1) =
      (DLEvent.attempt url k :: DLEvent.sleep1 :: (tryAttempts dl url (k + 1) n).1,
        (tryAttempts dl url (k + 1) n).2) := by
  conv_lhs => unfold tryAttempts
  rw [h]

/-- Catch-all membership lemma for one candidate's retry loop: every event
is an in-range attempt for this url, the post-exception sleep, or the
image write of a genuine in-range 200 response. -/
theorem ta_mem (dl : Nat → HttpResp) (url : String) :
    ∀ (n k : Nat) (e : DLEvent), e ∈ (tryAttempts dl url k n).1 →
      (∃ k', e = DLEvent.attempt url k' ∧ k ≤ k' ∧ k' < k + n) ∨
      e = DLEvent.sleep1 ∨
      (∃ b k', e = DLEvent.writeImage url b ∧ k ≤ k' ∧ k' < k + n ∧
        dl k' = HttpResp.resp 200 b) := by
  intro n
  induction n with
  | zero =>
    intro k e he
    rw [tryAttempts_zero] at he
    cases he
  | succ n ih =>
    intro k e he
    cases hdl : dl k with
    | resp code body =>
      by_cases hc : code = 200
      · subst hc
        rw [tryAttempts_succ_200 hdl] at he
        rcases List.mem_cons.mp he with rfl | he'
        · exact Or.inl ⟨k, rfl, le_refl k, by omega⟩
        · rcases List.mem_singleton.mp he' with rfl
          exact Or.inr (Or.inr ⟨body, k, rfl, le_refl k, by omega, hdl⟩)
      · rw [tryAttempts_succ_other hdl hc] at he
        rcases List.mem_cons.mp he with rfl | he'
        · exact Or.inl ⟨k, rfl, le_refl k, by omega⟩
        · rcases ih (k + 1) e he' with ⟨k', h1, h2, h3⟩ | h | ⟨b, k', h1, h2, h3, h4⟩
          · exact Or.inl ⟨k', h1, by omega, by omega⟩
          · exact Or.inr (Or.inl h)
          · exact Or.inr (Or.inr ⟨b, k', h1, by omega, by omega, h4⟩)
    | exn =>
      rw [tryAttempts_succ_exn hdl] at he
      rcases List.mem_cons.mp he with rfl | he'
      · exact Or.inl ⟨k, rfl, le_refl k, by omega⟩
      · rcases List.mem_cons.mp he' with rfl | he''
        · exact Or.inr (Or.inl rfl)
        · rcases ih (k + 1) e he'' with ⟨k', h1, h2, h3⟩ | h | ⟨b, k', h1, h2, h3, h4⟩
          · exact Or.inl ⟨k', h1, by omega, by omega⟩
          · exact Or.inr (Or.inl h)
          · exact Or.inr (Or.inr ⟨b, k', h1, by omega, by omega, h4⟩)

/-- `saved` is set exactly when an image write happened, and in that case
the image write is the final event of the candidate's block. -/
theorem ta_saved (dl : Nat → HttpResp) (url : String) :
    ∀ n k,
      ((tryAttempts dl url k n).2 = true →
        ∃ pre b, (tryAttempts dl url k n).1 = pre ++ [DLEvent.writeImage url b] ∧
          ∀ u' b', DLEvent.writeImage u' b' ∉ pre) ∧
      ((tryAttempts dl url k n).2 = false →
        ∀ u' b', DLEvent.writeImage u' b' ∉ (tryAttempts dl url k n).1) := by
  intro n
  induction n with
  | zero =>
    intro k
    rw [tryAttempts_zero]
    exact ⟨fun h => absurd h (by simp), fun _ u' b' h => absurd h (by simp)⟩
  | succ n ih =>
    intro k
    cases hdl : dl k with
    | resp code body =>
      by_cases hc : code = 200
      · subst hc
        rw [tryAttempts_succ_200 hdl]
        constructor
        · intro _
          refine ⟨[DLEvent.attempt url k], body, rfl, ?_⟩
          intro u' b' h
          rcases List.mem_singleton.mp h with h'
          cases h'
        · intro h
          cases h
      · rw [tryAttempts_succ_other hdl hc]
        constructor
        · intro hs
          obtain ⟨pre, b, hevs, hpre⟩ := (ih (k + 1)).1 hs
          refine ⟨DLEvent.attempt url k :: pre, b, by rw [hevs]; rfl, ?_⟩
          intro u' b' h
          rcases List.mem_cons.mp h with h' | h'
          · cases h'
          · exact hpre u' b' h'
        · intro hs u' b' h
          rcases List.mem_cons.mp h with h' | h'
          · cases h'
          · exact (ih (k + 1)).2 hs u' b' h'
    | exn =>
      rw [tryAttempts_succ_exn hdl]
      constructor
      · intro hs
        obtain ⟨pre, b, hevs, hpre⟩ := (ih (k + 1)).1 hs
        refine ⟨DLEvent.attempt url k :: DLEvent.sleep1 :: pre, b, by rw [hevs]; rfl, ?_⟩
        intro u' b' h
        rcases List.mem_cons.mp h with h' | h'
        · cases h'
        · rcases List.mem_cons.mp h' with h'' | h''
          · cases h''
          · exact hpre u' b' h''
      · intro hs u' b' h
        rcases List.mem_cons.mp h with h' | h'
        · cases h'
        · rcases List.mem_cons.mp h' with h'' | h''
          · cases h''
          · exact (ih (k + 1)).2 hs u' b' h''

/-- A candidate's block never starts with a sleep: its first event, when
there is one, is a download attempt. -/
theorem ta_head {dl : Nat → HttpResp} {url : String} {k n : Nat} {e : DLEvent}
    (h : (tryAttempts dl url k n).1.head? = some e) :
    ∃ k', e = DLEvent.attempt url k' := by
  cases n with
  | zero => rw [tryAttempts_zero] at h; cases h
  | succ n =>
    cases hdl : dl k with
    | resp code body =>
      by_cases hc : code = 200
      · subst hc
        rw [tryAttempts_succ_200 hdl] at h
        exact ⟨k, (Option.some.injEq _ _).mp h ▸ rfl⟩
      · rw [tryAttempts_succ_other hdl hc] at h
        exact ⟨k, (Option.some.injEq _ _).mp h ▸ rfl⟩
    | exn =>
      rw [tryAttempts_succ_exn hdl] at h
      exact ⟨k, (Option.some.injEq _ _).mp h ▸ rfl⟩

/-- With at least one attempt budgeted, a candidate's block is nonempty. -/
theorem ta_ne_nil (dl : Nat → HttpResp) (url : String) (k n : Nat) :
    (tryAttempts dl url k (n + 1)).1 ≠ [] := by
  cases hdl : dl k with
  | resp code body =>
    by_cases hc : code = 200
    · subst hc; rw [tryAttempts_succ_200 hdl]; simp
    · rw [tryAttempts_succ_other hdl hc]; simp
  | exn => rw [tryAttempts_succ_exn hdl]; simp

/-- A candidate's block never ends with an attempt that raised: after an
exception the 1-second sleep always follows. -/
theorem ta_last_not_exn (dl : Nat → HttpResp) (url : String) :
    ∀ (n k : Nat) {u' : String} {k' : Nat},
      (tryAttempts dl url k n).1.getLast? = some (DLEvent.attempt u' k') →
      dl k' ≠ HttpResp.exn := by
  intro n
  induction n with
  | zero =>
    intro k u' k' h
    rw [tryAttempts_zero] at h
    cases h
  | succ n ih =>
    intro k u' k' h
    cases hdl : dl k with
    | resp code body =>
      by_cases hc : code = 200
      · subst hc
        rw [tryAttempts_succ_200 hdl] at h
        rw [show ([DLEvent.attempt url k, DLEvent.writeImage url body] :
          List DLEvent).getLast? = some (DLEvent.writeImage url body) from rfl] at h
        cases (Option.some.injEq _ _).mp h
      · rw [tryAttempts_succ_other hdl hc] at h
        cases hrest : (tryAttempts dl url (k + 1) n).1 with
        | nil =>
          rw [hrest] at h
          rcases (Option.some.injEq _ _).mp h with heq
          injection heq with hu hk
          subst hk
          rw [hdl]
          simp
        | cons x xs =>
          rw [hrest, List.getLast?_cons_cons] at h
          rw [← hrest] at h
          exact ih (k + 1) h
    | exn =>
      rw [tryAttempts_succ_exn hdl] at h
      cases hrest : (tryAttempts dl url (k + 1) n).1 with
      | nil =>
        rw [hrest, List.getLast?_cons_cons] at h
        rcases (Option.some.injEq _ _).mp h with heq
        cases heq
      | cons x xs =>
        rw [hrest, List.getLast?_cons_cons, List.getLast?_cons_cons, ← hrest] at h
        exact ih (k + 1) h

/-- The pause discipline within one candidate's block: the only sleeps
are the ones directly after an attempt that raised, and every raising
attempt is directly followed by one. -/
theorem ta_chain (download : String → Nat → HttpResp) (url : String) :
    ∀ n k, List.Chain' (pauseRel download) (tryAttempts (download url) url k n).1 := by
  intro n
  induction n with
  | zero =>
    intro k
    rw [tryAttempts_zero]
    exact List.chain'_nil
  | succ n ih =>
    intro k
    cases hdl : download url k with
    | resp code body =>
      by_cases hc : code = 200
      · subst hc
        rw [tryAttempts_succ_200 hdl]
        refine List.chain'_cons'.mpr ⟨?_, List.chain'_singleton _⟩
        intro y hy
        rcases (Option.some.injEq _ _).mp hy with rfl
        constructor
        · intro u k0 heq hexn
          injection heq with hu hk
          subst hu; subst hk
          rw [hdl] at hexn
          cases hexn
        · intro hy'
          cases hy'
      · rw [tryAttempts_succ_other hdl hc]
        refine List.chain'_cons'.mpr ⟨?_, ih (k + 1)⟩
        intro y hy
        constructor
        · intro u k0 heq hexn
          injection heq with hu hk
          subst hu; subst hk
          rw [hdl] at hexn
          cases hexn
        · intro hy'
          subst hy'
          obtain ⟨k'', hk''⟩ := ta_head hy
          cases hk''
    | exn =>
      rw [tryAttempts_succ_exn hdl]
      refine List.chain'_cons'.mpr ⟨?_, ?_⟩
      · intro y hy
        rcases (Option.some.injEq _ _).mp hy with rfl
        constructor
        · intro u k0 heq hexn
          rfl
        · intro _
          exact ⟨url, k, rfl, hdl⟩
      · refine List.chain'_cons'.mpr ⟨?_, ih (k + 1)⟩
        intro y hy
        constructor
        · intro u k0 heq hexn
          cases heq
        · intro hy'
          subst hy'
          obtain ⟨k'', hk''⟩ := ta_head hy
          cases hk''

theorem mem_of_getLast? {α : Type} {l : List α} {x : α} (h : x ∈ l.getLast?) : x ∈ l := by
  obtain ⟨hne, rfl⟩ := List.mem_getLast?_eq_getLast h
  exact List.getLast_mem hne

theorem downloadLoop_nil (env : DLEnv) : downloadLoop env [] = ([], false) := rfl

theorem downloadLoop_cons_saved {env : DLEnv} {u : String} {rest : List String}
    (h : (tryAttempts (env.download u) u 0 3).2 = true) :
    downloadLoop env (u :: rest) = tryAttempts (env.download u) u 0 3 := by
  conv_lhs => unfold downloadLoop
  simp [h]

theorem downloadLoop_cons_not {env : DLEnv} {u : String} {rest : List String}
    (h : (tryAttempts (env.download u) u 0 3).2 = false) :
    downloadLoop env (u :: rest) =
      ((tryAttempts (env.download u) u 0 3).1 ++ (downloadLoop env rest).1,
        (downloadLoop env rest).2) := by
  conv_lhs => unfold downloadLoop
  simp [h]

/-- Catch-all membership lemma for the whole download loop. -/
theorem dll_mem (env : DLEnv) :
    ∀ (urls : List String) (e : DLEvent), e ∈ (downloadLoop env urls).1 →
      (∃ u k', e = DLEvent.attempt u k' ∧ u ∈ urls ∧ k' < 3) ∨
      e = DLEvent.sleep1 ∨
      (∃ u b k', e = DLEvent.writeImage u b ∧ u ∈ urls ∧ k' < 3 ∧
        env.download u k' = HttpResp.resp 200 b) := by
  intro urls
  induction urls with
  | nil =>
    intro e he
    rw [downloadLoop_nil] at he
    cases he
  | cons u rest ih =>
    intro e he
    cases hs : (tryAttempts (env.download u) u 0 3).2 with
    | true =>
      rw [downloadLoop_cons_saved hs] at he
      rcases ta_mem (env.download u) u 3 0 e he with
        ⟨k', h1, -, h3⟩ | h | ⟨b, k', h1, -, h3, h4⟩
      · exact Or.inl ⟨u, k', h1, by simp, by omega⟩
      · exact Or.inr (Or.inl h)
      · exact Or.inr (Or.inr ⟨u, b, k', h1, by simp, by omega, h4⟩)
    | false =>
      rw [downloadLoop_cons_not hs] at he
      rcases List.mem_append.mp he with he' | he'
      · rcases ta_mem (env.download u) u 3 0 e he' with
          ⟨k', h1, -, h3⟩ | h | ⟨b, k', h1, -, h3, h4⟩
        · exact Or.inl ⟨u, k', h1, by simp, by omega⟩
        · exact Or.inr (Or.inl h)
        · exact Or.inr (Or.inr ⟨u, b, k', h1, by simp, by omega, h4⟩)
      · rcases ih e he' with ⟨u', k', h1, h2, h3⟩ | h | ⟨u', b, k', h1, h2, h3, h4⟩
        · exact Or.inl ⟨u', k', h1, by simp [h2], h3⟩
        · exact Or.inr (Or.inl h)
        · exact Or.inr (Or.inr ⟨u', b, k', h1, by simp [h2], h3, h4⟩)

/-- If the download loop never succeeded, it wrote no image. -/
theorem dll_saved_false (env : DLEnv) :
    ∀ (urls : List String), (downloadLoop env urls).2 = false →
      ∀ u b, DLEvent.writeImage u b ∉ (downloadLoop env urls).1 := by
  intro urls
  induction urls with
  | nil =>
    intro _ u b h
    rw [downloadLoop_nil] at h
    cases h
  | cons u rest ih =>
    intro hs u' b' h
    cases hb : (tryAttempts (env.download u) u 0 3).2 with
    | true =>
      rw [downloadLoop_cons_saved hb] at hs
      rw [hb] at hs
      cases hs
    | false =>
      rw [downloadLoop_cons_not hb] at hs h
      rcases List.mem_append.mp h with h' | h'
      · exact (ta_saved (env.download u) u 3 0).2 hb u' b' h'
      · exact ih hs u' b' h'

/-- If the download loop succeeded, its trace ends with the one image
write and contains no other image write. -/
theorem dll_saved_true (env : DLEnv) :
    ∀ (urls : List String), (downloadLoop env urls).2 = true →
      ∃ pre u b, (downloadLoop env urls).1 = pre ++ [DLEvent.writeImage u b] ∧
        (∀ u' b', DLEvent.writeImage u' b' ∉ pre) := by
  intro urls
  induction urls with
  | nil =>
    intro hs
    rw [downloadLoop_nil] at hs
    cases hs
  | cons u rest ih =>
    intro hs
    cases hb : (tryAttempts (env.download u) u 0 3).2 with
    | true =>
      rw [downloadLoop_cons_saved hb]
      obtain ⟨pre, b, hevs, hpre⟩ := (ta_saved (env.download u) u 3 0).1 hb
      exact ⟨pre, u, b, hevs, hpre⟩
    | false =>
      rw [downloadLoop_cons_not hb] at hs ⊢
      obtain ⟨pre, u', b, hevs, hpre⟩ := ih hs
      refine ⟨(tryAttempts (env.download u) u 0 3).1 ++ pre, u', b, ?_, ?_⟩
      · rw [hevs, List.append_assoc]
      · intro u'' b'' hmem
        rcases List.mem_append.mp hmem with h' | h'
        · exact (ta_saved (env.download u) u 3 0).2 hb u'' b'' h'
        · exact hpre u'' b'' h'

/-- The download loop's first event, when there is one, is an attempt. -/
theorem dll_head (env : DLEnv) :
    ∀ (urls : List String) (e : DLEvent), (downloadLoop env urls).1.head? = some e →
      ∃ u k', e = DLEvent.attempt u k' := by
  intro urls
  induction urls with
  | nil =>
    intro e h
    rw [downloadLoop_nil] at h
    cases h
  | cons u rest ih =>
    intro e h
    cases hb : (tryAttempts (env.download u) u 0 3).2 with
    | true =>
      rw [downloadLoop_cons_saved hb] at h
      obtain ⟨k', hk'⟩ := ta_head h
      exact ⟨u, k', hk'⟩
    | false =>
      rw [downloadLoop_cons_not hb] at h
      rw [List.head?_append_of_ne_nil _ (ta_ne_nil (env.download u) u 0 2)] at h
      obtain ⟨k', hk'⟩ := ta_head h
      exact ⟨u, k', hk'⟩

/-- The download loop's trace never ends with an attempt that raised. -/
theorem dll_last_not_exn (env : DLEnv) :
    ∀ (urls : List String) {u' : String} {k' : Nat},
      (downloadLoop env urls).1.getLast? = some (DLEvent.attempt u' k') →
      env.download u' k' ≠ HttpResp.exn := by
  intro urls
  induction urls with
  | nil =>
    intro u' k' h
    rw [downloadLoop_nil] at h
    cases h
  | cons u rest ih =>
    intro u' k' h
    cases hb : (tryAttempts (env.download u) u 0 3).2 with
    | true =>
      rw [downloadLoop_cons_saved hb] at h
      have hmem := mem_of_getLast? (Option.mem_def.mpr h)
      rcases ta_mem (env.download u) u 3 0 _ hmem with
        ⟨k'', h1, -, -⟩ | h1 | ⟨b, k'', h1, -, -, -⟩
      · injection h1 with hu hk
        rw [hu]
        exact ta_last_not_exn (env.download u) u 3 0 h
      · cases h1
      · cases h1
    | false =>
      rw [downloadLoop_cons_not hb] at h
      cases hrest : (downloadLoop env rest).1 with
      | nil =>
        rw [hrest, List.append_nil] at h
        have hmem := mem_of_getLast? (Option.mem_def.mpr h)
        rcases ta_mem (env.download u) u 3 0 _ hmem with
          ⟨k'', h1, -, -⟩ | h1 | ⟨b, k'', h1, -, -, -⟩
        · injection h1 with hu hk
          rw [hu]
          exact ta_last_not_exn (env.download u) u 3 0 h
        · cases h1
        · cases h1
      | cons x xs =>
        rw [hrest] at h
        rw [List.getLast?_append_of_ne_nil _ (by simp)] at h
        rw [← hrest] at h
        exact ih h

/-- The pause discipline across the whole download loop. -/
theorem dll_chain (env : DLEnv) :
    ∀ (urls : List String),
      List.Chain' (pauseRel env.download) (downloadLoop env urls).1 := by
  intro urls
  induction urls with
  | nil =>
    rw [downloadLoop_nil]
    exact List.chain'_nil
  | cons u rest ih =>
    cases hb : (tryAttempts (env.download u) u 0 3).2 with
    | true =>
      rw [downloadLoop_cons_saved hb]
      exact ta_chain env.download u 3 0
    | false =>
      rw [downloadLoop_cons_not hb]
      refine List.chain'_append.mpr ⟨ta_chain env.download u 3 0, ih, ?_⟩
      intro x hx y hy
      constructor
      · intro u0 k0 heqx hexn
        subst heqx
        have hmem := mem_of_getLast? hx
        rcases ta_mem (env.download u) u 3 0 _ hmem with
          ⟨k'', h1, -, -⟩ | h1 | ⟨b, k'', h1, -, -, -⟩
        · injection h1 with hu hk
          rw [hu] at hexn
          exact absurd hexn (ta_last_not_exn (env.download u) u 3 0 (Option.mem_def.mp hx))
        · cases h1
        · cases h1
      · intro hy'
        subst hy'
        obtain ⟨u'', k'', hk''⟩ := dll_head env rest _ hy
        cases hk''

/-! ## Claim C7 — image download policy -/

theorem save_product_eq (env : DLEnv) (dom : Dom) (base : String) :
    save_product env dom base =
      (downloadLoop env (extract_image_urls env.urljoin dom base)).1 ++
        (if (downloadLoop env (extract_image_urls env.urljoin dom base)).2 then []
          else [DLEvent.writeSentinel]) ++ [DLEvent.writeData] := rfl

/-- Counterexample to C7 as stated: when every attempt returns HTTP 404
(no exception), the three attempts for the one candidate run back to back
with no 1-second pause between them — the pause lives only in the
`except` branch.  The trace violates `pausedBetween` (the spec's
"1-second pause between attempts"). -/
theorem c7_counterexample :
    save_product c7Env c7Dom "b" =
      [DLEvent.attempt "u" 0, DLEvent.attempt "u" 1, DLEvent.attempt "u" 2,
        DLEvent.writeSentinel, DLEvent.writeData] ∧
    pausedBetween (save_product c7Env c7Dom "b") = false :=
  ⟨rfl, rfl⟩

/-- Claim C7 as amended: candidate image URLs are attempted in order, each
up to 3 times (attempt indices 0–2); the process stops at the first
download that returns HTTP 200, whose body is written as the image file —
the image write is the final action before `data.json`, and its body is a
genuine 200 response of one of the at-most-3 attempts; if no candidate
ever succeeds, the no-image sentinel is written (and the sentinel appears
exactly when no image was written); the 1-second pause happens after
exactly those attempts that raised an exception — a non-200 HTTP response
retries immediately with no pause. -/
theorem c7_image_download_amended (env : DLEnv) (dom : Dom) (base : String) :
    (DLEvent.writeSentinel ∈ save_product env dom base ↔
      ∀ u b, DLEvent.writeImage u b ∉ save_product env dom base) ∧
    (∀ u b, DLEvent.writeImage u b ∈ save_product env dom base →
      (∃ k, k < 3 ∧ env.download u k = HttpResp.resp 200 b) ∧
      u ∈ extract_image_urls env.urljoin dom base ∧
      ∃ pre, save_product env dom base = pre ++ [DLEvent.writeImage u b, DLEvent.writeData] ∧
        ∀ u' b', DLEvent.writeImage u' b' ∉ pre) ∧
    (∀ u k, DLEvent.attempt u k ∈ save_product env dom base →
      k < 3 ∧ u ∈ extract_image_urls env.urljoin dom base) ∧
    List.Chain' (pauseRel env.download) (save_product env dom base) := by
  have htr := save_product_eq env dom base
  have himage_mem : ∀ u b, DLEvent.writeImage u b ∈ save_product env dom base ↔
      DLEvent.writeImage u b ∈ (downloadLoop env (extract_image_urls env.urljoin dom base)).1 := by
    intro u b
    rw [htr]
    constructor
    · intro h
      rcases List.mem_append.mp h with h' | h'
      · rcases List.mem_append.mp h' with h'' | h''
        · exact h''
        · exfalso
          by_cases hs : (downloadLoop env (extract_image_urls env.urljoin dom base)).2 = true
          · rw [if_pos hs] at h''
            cases h''
          · rw [if_neg hs] at h''
            rcases List.mem_singleton.mp h'' with h3
            cases h3
      · exfalso
        rcases List.mem_singleton.mp h' with h3
        cases h3
    · intro h
      exact List.mem_append.mpr (Or.inl (List.mem_append.mpr (Or.inl h)))
  have hsent_mem : DLEvent.writeSentinel ∈ save_product env dom base ↔
      (downloadLoop env (extract_image_urls env.urljoin dom base)).2 = false := by
    rw [htr]
    constructor
    · intro h
      rcases List.mem_append.mp h with h' | h'
      · rcases List.mem_append.mp h' with h'' | h''
        · exfalso
          rcases dll_mem env _ _ h'' with ⟨u, k', h1, -, -⟩ | h1 | ⟨u, b, k', h1, -, -, -⟩
          · cases h1
          · cases h1
          · cases h1
        · by_cases hs : (downloadLoop env (extract_image_urls env.urljoin dom base)).2 = true
          · rw [if_pos hs] at h''
            cases h''
          · exact Bool.eq_false_iff.mpr hs
      · exfalso
        rcases List.mem_singleton.mp h' with h3
        cases h3
    · intro h
      rw [h]
      exact List.mem_append.mpr (Or.inl (List.mem_append.mpr (Or.inr (by simp))))
  refine ⟨?_, ?_, ?_, ?_⟩
  · constructor
    · intro hs u b hmem
      have hfalse := hsent_mem.mp hs
      exact dll_saved_false env _ hfalse u b ((himage_mem u b).mp hmem)
    · intro hno
      refine hsent_mem.mpr ?_
      cases hs : (downloadLoop env (extract_image_urls env.urljoin dom base)).2 with
      | false => rfl
      | true =>
        exfalso
        obtain ⟨pre, u, b, hevs, -⟩ := dll_saved_true env _ hs
        exact hno u b ((himage_mem u b).mpr (by rw [hevs]; simp))
  · intro u b hmem
    have hmemE := (himage_mem u b).mp hmem
    rcases dll_mem env _ _ hmemE with ⟨u0, k', h1, -, -⟩ | h1 | ⟨u0, b0, k', h1, h2, h3, h4⟩
    · cases h1
    · cases h1
    · injection h1 with hu hb
      subst hu
      subst hb
      refine ⟨⟨k', h3, h4⟩, h2, ?_⟩
      have hs : (downloadLoop env (extract_image_urls env.urljoin dom base)).2 = true := by
        cases hs : (downloadLoop env (extract_image_urls env.urljoin dom base)).2 with
        | true => rfl
        | false => exact absurd hmemE (dll_saved_false env _ hs u b)
      obtain ⟨pre, u1, b1, hevs, hpre⟩ := dll_saved_true env _ hs
      have heq1 : DLEvent.writeImage u b = DLEvent.writeImage u1 b1 := by
        rw [hevs] at hmemE
        rcases List.mem_append.mp hmemE with h' | h'
        · exact absurd h' (hpre u b)
        · exact List.mem_singleton.mp h'
      injection heq1 with hu1 hb1
      subst hu1
      subst hb1
      refine ⟨pre, ?_, hpre⟩
      rw [htr, hevs, if_pos hs, List.append_nil, List.append_assoc]
      rfl
  · intro u k hmem
    rw [htr] at hmem
    have hmemE : DLEvent.attempt u k ∈
        (downloadLoop env (extract_image_urls env.urljoin dom base)).1 := by
      rcases List.mem_append.mp hmem with h' | h'
      · rcases List.mem_append.mp h' with h'' | h''
        · exact h''
        · exfalso
          by_cases hs : (downloadLoop env (extract_image_urls env.urljoin dom base)).2 = true
          · rw [if_pos hs] at h''
            cases h''
          · rw [if_neg hs] at h''
            rcases List.mem_singleton.mp h'' with h3
            cases h3
      · exfalso
        rcases List.mem_singleton.mp h' with h3
        cases h3
    rcases dll_mem env _ _ hmemE with ⟨u0, k', h1, h2, h3⟩ | h1 | ⟨u0, b0, k', h1, -, -, -⟩
    · injection h1 with hu hk
      subst hu
      subst hk
      exact ⟨h3, h2⟩
    · cases h1
    · cases h1
  · have hbound : ∀ x ∈ (downloadLoop env (extract_image_urls env.urljoin dom base)).1.getLast?,
        ∀ y : DLEvent, y ≠ DLEvent.sleep1 → pauseRel env.download x y := by
      intro x hx y hy
      constructor
      · intro u0 k0 heqx hexn
        subst heqx
        exact absurd hexn (dll_last_not_exn env _ (Option.mem_def.mp hx))
      · intro hy'
        exact absurd hy' hy
    by_cases hs : (downloadLoop env (extract_image_urls env.urljoin dom base)).2 = true
    · rw [htr, if_pos hs, List.append_nil]
      refine List.chain'_append.mpr ⟨dll_chain env _, List.chain'_singleton _, ?_⟩
      intro x hx y hy
      rcases (Option.some.injEq _ _).mp hy with rfl
      exact hbound x hx _ (by simp)
    · rw [htr, if_neg hs, List.append_assoc]
      refine List.chain'_append.mpr ⟨dll_chain env _, ?_, ?_⟩
      · refine List.chain'_cons'.mpr ⟨?_, List.chain'_singleton _⟩
        intro y hy
        rcases (Option.some.injEq _ _).mp hy with rfl
        constructor
        · intro u0 k0 heq hexn
          cases heq
        · intro hy'
          cases hy'
      · intro x hx y hy
        rcases (Option.some.injEq _ _).mp hy with rfl
        exact hbound x hx _ (by simp)

/-- Witness for C7 (amended), on the all-404 environment: attempt 0 of
candidate `"u"` is within the 3-attempt budget for a candidate of this
page, and since nothing succeeded no image file was written. -/
theorem c7_witness :
    ((0 : Nat) < 3 ∧ "u" ∈ extract_image_urls c7Env.urljoin c7Dom "b") ∧
    DLEvent.writeImage "u" "x" ∉ save_product c7Env c7Dom "b" := by
  constructor
  · exact (c7_image_download_amended c7Env c7Dom "b").2.2.1 "u" 0 (by decide)
  · exact (c7_image_download_amended c7Env c7Dom "b").1.mp (by decide) "u" "x"

end Lamoda
